import Mathlib

/-
Verification of the light/shadow model and the glTF extraction of the
three-d rendering engine, against its specification.

The Rust sources embedded here are src/light.rs (AmbientLight,
DirectionalLight, PointLight, SpotLight, shadow_matrix,
compute_up_direction) and src/io/gltf.rs (parse_tree, parse_texture).
Supporting types that the repository uses but whose code is not part of
the given sources (UniformBuffer, Camera, Texture2D, RenderTarget) are
modelled from the specification and marked as such in their doc comments.

Floating point values (f32) are modelled as real numbers; division by
zero yields the junk value 0 as usual in Lean, where Rust would produce
NaN or infinity. In both models a zero-length vector normalizes to a
non-unit result, which is what the refuted claims below rely on.
-/

namespace ThreeD

/-- Three component float vector, as the cgmath Vec3 used by light.rs. -/
@[ext]
structure Vec3 where
  x : ℝ
  y : ℝ
  z : ℝ

/-- Constructor mirroring the cgmath vec3 function. -/
def vec3 (x y z : ℝ) : Vec3 := ⟨x, y, z⟩

namespace Vec3

/-- Dot product of two vectors. -/
noncomputable def dot (a b : Vec3) : ℝ := a.x * b.x + a.y * b.y + a.z * b.z

/-- Cross product of two vectors. -/
noncomputable def cross (a b : Vec3) : Vec3 :=
  ⟨a.y * b.z - a.z * b.y, a.z * b.x - a.x * b.z, a.x * b.y - a.y * b.x⟩

/-- Euclidean length (cgmath magnitude). -/
noncomputable def length (v : Vec3) : ℝ := Real.sqrt (v.dot v)

/-- Normalization: division of every component by the length.  For the
zero vector this is division by zero, junk in the model as in Rust. -/
noncomputable def normalize (v : Vec3) : Vec3 :=
  ⟨v.x / v.length, v.y / v.length, v.z / v.length⟩

/-- Componentwise subtraction. -/
noncomputable def sub (a b : Vec3) : Vec3 := ⟨a.x - b.x, a.y - b.y, a.z - b.z⟩

/-- Componentwise addition. -/
noncomputable def add (a b : Vec3) : Vec3 := ⟨a.x + b.x, a.y + b.y, a.z + b.z⟩

/-- Scalar multiple, written after the vector as in cgmath. -/
noncomputable def smul (v : Vec3) (s : ℝ) : Vec3 := ⟨v.x * s, v.y * s, v.z * s⟩

/-- Serialization of a vector into three floats, as used for uniform
buffer updates. -/
def to_slice (v : Vec3) : List ℝ := [v.x, v.y, v.z]

theorem to_slice_length (v : Vec3) : v.to_slice.length = 3 := rfl

theorem dot_self_nonneg (v : Vec3) : 0 ≤ v.dot v := by
  have hx : 0 ≤ v.x * v.x := mul_self_nonneg _
  have hy : 0 ≤ v.y * v.y := mul_self_nonneg _
  have hz : 0 ≤ v.z * v.z := mul_self_nonneg _
  unfold dot; linarith

theorem length_nonneg (v : Vec3) : 0 ≤ v.length := Real.sqrt_nonneg _

theorem length_sq (v : Vec3) : v.length ^ 2 = v.dot v :=
  Real.sq_sqrt v.dot_self_nonneg

theorem length_pos_of_dot_pos {v : Vec3} (h : 0 < v.dot v) : 0 < v.length :=
  Real.sqrt_pos.mpr h

/-- Normalization of a vector with positive square length yields a
vector of unit square length. -/
theorem dot_normalize_self {v : Vec3} (h : 0 < v.dot v) :
    v.normalize.dot v.normalize = 1 := by
  have hl : 0 < v.length := length_pos_of_dot_pos h
  have hl2 : v.length ^ 2 = v.dot v := v.length_sq
  unfold normalize dot
  unfold dot at hl2
  field_simp
  nlinarith [hl2]

/-- The normalized vector of a vector with positive square length is a
unit vector. -/
theorem length_normalize {v : Vec3} (h : 0 < v.dot v) : v.normalize.length = 1 := by
  unfold length
  rw [dot_normalize_self h, Real.sqrt_one]

/-- A nonzero vector has positive square length. -/
theorem dot_self_pos {v : Vec3} (h : v ≠ vec3 0 0 0) : 0 < v.dot v := by
  rcases lt_or_eq_of_le v.dot_self_nonneg with hlt | heq
  · exact hlt
  · exfalso
    apply h
    have hx : v.x = 0 := by unfold dot at heq; nlinarith [sq_nonneg v.x, sq_nonneg v.y, sq_nonneg v.z]
    have hy : v.y = 0 := by unfold dot at heq; nlinarith [sq_nonneg v.x, sq_nonneg v.y, sq_nonneg v.z]
    have hz : v.z = 0 := by unfold dot at heq; nlinarith [sq_nonneg v.x, sq_nonneg v.y, sq_nonneg v.z]
    unfold vec3
    ext <;> assumption

/-- Dot product against a scalar multiple. -/
theorem dot_smul_right (v w : Vec3) (k : ℝ) : v.dot (w.smul k) = k * v.dot w := by
  unfold dot smul
  ring

/-- Square length of a scalar multiple. -/
theorem smul_dot_smul (w : Vec3) (k : ℝ) : (w.smul k).dot (w.smul k) = k ^ 2 * w.dot w := by
  unfold dot smul
  ring

/-- Adding a vector and subtracting the base point gives it back. -/
theorem add_sub_cancel_left (p v : Vec3) : (p.add v).sub p = v := by
  unfold add sub
  ext <;> dsimp <;> ring

/-- Normalization scales dot products by the reciprocal length. -/
theorem dot_normalize_left (v u : Vec3) :
    v.normalize.dot u = v.dot u / v.length := by
  unfold normalize dot
  ring

/-- A cross product is orthogonal to its first argument. -/
theorem dot_cross_left (a b : Vec3) : (a.cross b).dot a = 0 := by
  unfold cross dot; ring

/-- A cross product is orthogonal to its second argument. -/
theorem dot_cross_right (a b : Vec3) : (a.cross b).dot b = 0 := by
  unfold cross dot; ring

end Vec3

/-- Four component float vector, used for homogeneous coordinates. -/
@[ext]
structure Vec4 where
  x : ℝ
  y : ℝ
  z : ℝ
  w : ℝ

/-- Four by four float matrix, entry eIJ sits in row I, column J, as the
cgmath Matrix4 used by light.rs. -/
@[ext]
structure Mat4 where
  e00 : ℝ
  e01 : ℝ
  e02 : ℝ
  e03 : ℝ
  e10 : ℝ
  e11 : ℝ
  e12 : ℝ
  e13 : ℝ
  e20 : ℝ
  e21 : ℝ
  e22 : ℝ
  e23 : ℝ
  e30 : ℝ
  e31 : ℝ
  e32 : ℝ
  e33 : ℝ

namespace Mat4

/-- Constructor taking the sixteen entries in column major order, as the
cgmath Matrix4 new function called by shadow_matrix in light.rs. -/
def new (c0r0 c0r1 c0r2 c0r3 c1r0 c1r1 c1r2 c1r3
         c2r0 c2r1 c2r2 c2r3 c3r0 c3r1 c3r2 c3r3 : ℝ) : Mat4 :=
  ⟨c0r0, c1r0, c2r0, c3r0,
   c0r1, c1r1, c2r1, c3r1,
   c0r2, c1r2, c2r2, c3r2,
   c0r3, c1r3, c2r3, c3r3⟩

/-- Matrix product. -/
noncomputable def mul (a b : Mat4) : Mat4 :=
  ⟨a.e00 * b.e00 + a.e01 * b.e10 + a.e02 * b.e20 + a.e03 * b.e30,
   a.e00 * b.e01 + a.e01 * b.e11 + a.e02 * b.e21 + a.e03 * b.e31,
   a.e00 * b.e02 + a.e01 * b.e12 + a.e02 * b.e22 + a.e03 * b.e32,
   a.e00 * b.e03 + a.e01 * b.e13 + a.e02 * b.e23 + a.e03 * b.e33,
   a.e10 * b.e00 + a.e11 * b.e10 + a.e12 * b.e20 + a.e13 * b.e30,
   a.e10 * b.e01 + a.e11 * b.e11 + a.e12 * b.e21 + a.e13 * b.e31,
   a.e10 * b.e02 + a.e11 * b.e12 + a.e12 * b.e22 + a.e13 * b.e32,
   a.e10 * b.e03 + a.e11 * b.e13 + a.e12 * b.e23 + a.e13 * b.e33,
   a.e20 * b.e00 + a.e21 * b.e10 + a.e22 * b.e20 + a.e23 * b.e30,
   a.e20 * b.e01 + a.e21 * b.e11 + a.e22 * b.e21 + a.e23 * b.e31,
   a.e20 * b.e02 + a.e21 * b.e12 + a.e22 * b.e22 + a.e23 * b.e32,
   a.e20 * b.e03 + a.e21 * b.e13 + a.e22 * b.e23 + a.e23 * b.e33,
   a.e30 * b.e00 + a.e31 * b.e10 + a.e32 * b.e20 + a.e33 * b.e30,
   a.e30 * b.e01 + a.e31 * b.e11 + a.e32 * b.e21 + a.e33 * b.e31,
   a.e30 * b.e02 + a.e31 * b.e12 + a.e32 * b.e22 + a.e33 * b.e32,
   a.e30 * b.e03 + a.e31 * b.e13 + a.e32 * b.e23 + a.e33 * b.e33⟩

/-- Matrix times homogeneous vector. -/
noncomputable def mulVec4 (m : Mat4) (v : Vec4) : Vec4 :=
  ⟨m.e00 * v.x + m.e01 * v.y + m.e02 * v.z + m.e03 * v.w,
   m.e10 * v.x + m.e11 * v.y + m.e12 * v.z + m.e13 * v.w,
   m.e20 * v.x + m.e21 * v.y + m.e22 * v.z + m.e23 * v.w,
   m.e30 * v.x + m.e31 * v.y + m.e32 * v.z + m.e33 * v.w⟩

/-- Serialization into sixteen floats in column major order, as used for
uniform buffer updates. -/
def to_slice (m : Mat4) : List ℝ :=
  [m.e00, m.e10, m.e20, m.e30,
   m.e01, m.e11, m.e21, m.e31,
   m.e02, m.e12, m.e22, m.e32,
   m.e03, m.e13, m.e23, m.e33]

theorem to_slice_length16 (m : Mat4) : m.to_slice.length = 16 := rfl

/-- Application of a product is the composition of applications. -/
theorem mul_mulVec4 (a b : Mat4) (v : Vec4) :
    (a.mul b).mulVec4 v = a.mulVec4 (b.mulVec4 v) := by
  unfold mul mulVec4
  ext <;> ring

end Mat4

/-- Modelled from the spec: UniformBuffer, whose code is not among the
given sources.  Per the spec it is an ordered list of field widths fixed
at construction, fields addressed by index, updates writing fixed size
slices at a field offset, with an invalid field index or a size mismatch
being an error.  The model keeps each field as its own float list. -/
structure UniformBuffer where
  sizes : List ℕ
  data : List (List ℝ)

namespace UniformBuffer

/-- Modelled from the spec: construction fixes the layout; the initial
contents are zeroed. -/
def new (sizes : List ℕ) : UniformBuffer :=
  ⟨sizes, sizes.map (fun s => List.replicate s (0 : ℝ))⟩

/-- Modelled from the spec: writing a slice at a field index fails on an
out of range index or on a slice whose size differs from the field width.
The Rust callers in light.rs unwrap this result, so a failure there is a
panic; the light operations below therefore propagate the none case. -/
def update (b : UniformBuffer) (i : ℕ) (s : List ℝ) : Option UniformBuffer :=
  match b.sizes[i]? with
  | some sz => if s.length = sz then some ⟨b.sizes, b.data.set i s⟩ else none
  | none => none

/-- Modelled from the spec: reading a field returns its slice. -/
def get (b : UniformBuffer) (i : ℕ) : Option (List ℝ) := b.data[i]?

theorem update_sizes {b b' : UniformBuffer} {i : ℕ} {s : List ℝ}
    (h : b.update i s = some b') : b'.sizes = b.sizes := by
  unfold update at h
  cases hs : b.sizes[i]? with
  | none => rw [hs] at h; exact absurd h (by simp)
  | some sz =>
    rw [hs] at h
    by_cases hl : s.length = sz
    · simp only [hl, if_pos rfl] at h
      cases h; rfl
    · simp [hl] at h

theorem update_data {b b' : UniformBuffer} {i : ℕ} {s : List ℝ}
    (h : b.update i s = some b') : b'.data = b.data.set i s := by
  unfold update at h
  cases hs : b.sizes[i]? with
  | none => rw [hs] at h; exact absurd h (by simp)
  | some sz =>
    rw [hs] at h
    by_cases hl : s.length = sz
    · simp only [hl, if_pos rfl] at h
      cases h; rfl
    · simp [hl] at h

theorem update_length {b b' : UniformBuffer} {i : ℕ} {s : List ℝ}
    (h : b.update i s = some b') : b'.data.length = b.data.length := by
  rw [update_data h, List.length_set]

/-- Reading a field other than the one just written is unchanged. -/
theorem get_update_ne {b b' : UniformBuffer} {i j : ℕ} {s : List ℝ}
    (h : b.update i s = some b') (hij : i ≠ j) : b'.get j = b.get j := by
  unfold get
  rw [update_data h, List.getElem?_set_ne hij]

/-- Reading the field just written returns the written slice, when the
index is within the stored data. -/
theorem get_update_eq {b b' : UniformBuffer} {i : ℕ} {s : List ℝ}
    (h : b.update i s = some b') (hi : i < b.data.length) :
    b'.get i = some s := by
  unfold get
  rw [update_data h, List.getElem?_set_self hi]

end UniformBuffer

/-- Modelled from the spec: the projection of a Camera, either
orthographic with frustum width, height and depth, or perspective with a
field of view in degrees, an aspect ratio and near and far planes.  The
Camera code is not among the given sources. -/
inductive Projection where
  | orthographic (width height depth : ℝ)
  | perspective (fovyDegrees aspect zNear zFar : ℝ)

/-- Modelled from the spec: a Camera is a projection and view matrix
holder constructed as perspective or orthographic from a position, a
target, an up vector and projection parameters. -/
structure Camera where
  position : Vec3
  target : Vec3
  up : Vec3
  projection : Projection

namespace Camera

/-- Modelled from the spec: orthographic camera constructor.  The GPU
context argument of the Rust constructor is opaque and omitted. -/
def new_orthographic (position target up : Vec3) (width height depth : ℝ) : Camera :=
  ⟨position, target, up, .orthographic width height depth⟩

/-- Modelled from the spec: perspective camera constructor. -/
def new_perspective (position target up : Vec3) (fovyDegrees aspect zNear zFar : ℝ) : Camera :=
  ⟨position, target, up, .perspective fovyDegrees aspect zNear zFar⟩

/-- Forward axis of the view: the normalized vector from the position to
the target. -/
noncomputable def forward (c : Camera) : Vec3 := (c.target.sub c.position).normalize

/-- Side axis of the view. -/
noncomputable def side (c : Camera) : Vec3 := (c.forward.cross c.up).normalize

/-- Recomputed up axis of the view. -/
noncomputable def viewUp (c : Camera) : Vec3 := c.side.cross c.forward

/-- Modelled from the spec: the view matrix is the standard right handed
look-at matrix built from position, target and up. -/
noncomputable def get_view (c : Camera) : Mat4 :=
  let s := c.side
  let u := c.viewUp
  let f := c.forward
  let p := c.position
  ⟨s.x, s.y, s.z, -(s.dot p),
   u.x, u.y, u.z, -(u.dot p),
   -f.x, -f.y, -f.z, f.dot p,
   0, 0, 0, 1⟩

/-- Modelled from the spec: the projection matrix.  The orthographic
case frames a box of the given width and height centered on the view
axis, reaching from a near plane at distance zero to a far plane at the
frustum depth, so that the box is centered on the camera target set by
generate_shadow_map in light.rs, which places the camera half a depth
behind its target.  The perspective case is the standard OpenGL
perspective matrix, with the field of view given in degrees. -/
noncomputable def get_projection (c : Camera) : Mat4 :=
  match c.projection with
  | .orthographic width height depth =>
      ⟨2 / width, 0, 0, 0,
       0, 2 / height, 0, 0,
       0, 0, -2 / depth, -1,
       0, 0, 0, 1⟩
  | .perspective fovyDegrees _aspect zNear zFar =>
      let t := Real.tan (fovyDegrees * Real.pi / 180 / 2)
      ⟨1 / (t * _aspect), 0, 0, 0,
       0, 1 / t, 0, 0,
       0, 0, -(zFar + zNear) / (zFar - zNear), -2 * zFar * zNear / (zFar - zNear),
       0, 0, -1, 0⟩

/-- Center of the view frustum: the point on the view axis halfway
between the near and the far plane (near zero and far depth for the
orthographic case, the given planes for the perspective case). -/
noncomputable def frustumCenter (c : Camera) : Vec3 :=
  match c.projection with
  | .orthographic _ _ depth => c.position.add (c.forward.smul (depth / 2))
  | .perspective _ _ zNear zFar => c.position.add (c.forward.smul ((zNear + zFar) / 2))

end Camera

/-- Modelled from the spec: a depth texture with a width and a height.
Texture2D code is not among the given sources; the claims only use its
dimensions. -/
structure Texture2D where
  width : ℕ
  height : ℕ

/-- Modelled from the spec: allocation of a depth only texture of the
requested resolution. -/
def Texture2D.new_as_depth_target (width height : ℕ) : Texture2D := ⟨width, height⟩

/-- Modelled from the spec: a depth only render destination.  Its GPU
side effects (write_to_depth, clear_depth) do not touch the light state
the claims are about, so the model keeps it opaque. -/
structure RenderTarget where
  colorChannels : ℕ

def RenderTarget.new (colorChannels : ℕ) : RenderTarget := ⟨colorChannels⟩

/-- Embedding of shadow_matrix from light.rs: the bias matrix times the
projection matrix times the view matrix of a camera. -/
noncomputable def shadow_matrix (camera : Camera) : Mat4 :=
  let bias_matrix := Mat4.new
                        0.5 0.0 0.0 0.0
                        0.0 0.5 0.0 0.0
                        0.0 0.0 0.5 0.0
                        0.5 0.5 0.5 1.0
  bias_matrix.mul (camera.get_projection.mul camera.get_view)

/-- Embedding of compute_up_direction from light.rs. -/
noncomputable def compute_up_direction (direction : Vec3) : Vec3 :=
  if |(vec3 1 0 0).dot direction| > 0.9 then
    ((vec3 0 1 0).cross direction).normalize
  else
    ((vec3 1 0 0).cross direction).normalize

/-- Embedding of DirectionalLight from light.rs.  The GPU context field
is opaque and omitted.  Buffer updates that the Rust code unwraps are
propagated as none (a Rust panic). -/
structure DirectionalLight where
  light_buffer : UniformBuffer
  shadow_rendertarget : RenderTarget
  shadow_texture : Option Texture2D
  shadow_camera : Option Camera

namespace DirectionalLight

def set_color (l : DirectionalLight) (color : Vec3) : Option DirectionalLight :=
  (l.light_buffer.update 0 color.to_slice).map (fun b => { l with light_buffer := b })

def set_intensity (l : DirectionalLight) (intensity : ℝ) : Option DirectionalLight :=
  (l.light_buffer.update 1 [intensity]).map (fun b => { l with light_buffer := b })

def set_direction (l : DirectionalLight) (direction : Vec3) : Option DirectionalLight :=
  (l.light_buffer.update 2 direction.to_slice).map (fun b => { l with light_buffer := b })

/-- Reads field 2 back out of the buffer and takes its first three
entries, as the indexing d[0], d[1], d[2] in the source. -/
def direction (l : DirectionalLight) : Option Vec3 :=
  (l.light_buffer.get 2).bind (fun d =>
    match d with
    | d0 :: d1 :: d2 :: _ => some (vec3 d0 d1 d2)
    | _ => none)

def new (intensity : ℝ) (color : Vec3) (dir : Vec3) : Option DirectionalLight :=
  let light : DirectionalLight :=
    ⟨UniformBuffer.new [3, 1, 3, 1, 16], RenderTarget.new 0, none, none⟩
  (light.set_intensity intensity).bind (fun light =>
    (light.set_color color).bind (fun light =>
      light.set_direction dir))

def clear_shadow_map (l : DirectionalLight) : DirectionalLight :=
  { l with shadow_camera := none, shadow_texture := none }

/-- Embedding of DirectionalLight generate_shadow_map.  The render_scene
callback only issues draw calls into the render target through depth
state it cannot reach the light through, so it is not a parameter of the
model; the depth state and render target calls are likewise GPU effects
outside the light state. -/
noncomputable def generate_shadow_map (l : DirectionalLight) (target : Vec3)
    (frustrum_width frustrum_height frustrum_depth : ℝ)
    (texture_width texture_height : ℕ) : Option DirectionalLight :=
  (l.direction).bind (fun direction =>
    let up := compute_up_direction direction
    let camera := Camera.new_orthographic
        (target.sub ((direction.normalize.smul 0.5).smul frustrum_depth)) target up
        frustrum_width frustrum_height frustrum_depth
    (l.light_buffer.update 4 (shadow_matrix camera).to_slice).bind (fun buffer =>
      some { l with
              shadow_camera := some camera,
              light_buffer := buffer,
              shadow_texture := some (Texture2D.new_as_depth_target texture_width texture_height) }))

def shadow_map (l : DirectionalLight) : Option Texture2D := l.shadow_texture

end DirectionalLight

/-- Embedding of SpotLight from light.rs. -/
structure SpotLight where
  light_buffer : UniformBuffer
  shadow_rendertarget : RenderTarget
  shadow_texture : Option Texture2D
  shadow_camera : Option Camera

namespace SpotLight

def set_color (l : SpotLight) (color : Vec3) : Option SpotLight :=
  (l.light_buffer.update 0 color.to_slice).map (fun b => { l with light_buffer := b })

def set_intensity (l : SpotLight) (intensity : ℝ) : Option SpotLight :=
  (l.light_buffer.update 1 [intensity]).map (fun b => { l with light_buffer := b })

def set_attenuation (l : SpotLight) (constant linear exponential : ℝ) : Option SpotLight :=
  ((l.light_buffer.update 2 [constant]).map
      (fun b => { l with light_buffer := b })).bind (fun l =>
    ((l.light_buffer.update 3 [linear]).map
        (fun b => { l with light_buffer := b })).bind (fun l =>
      (l.light_buffer.update 4 [exponential]).map (fun b => { l with light_buffer := b })))

def set_position (l : SpotLight) (position : Vec3) : Option SpotLight :=
  (l.light_buffer.update 6 position.to_slice).map (fun b => { l with light_buffer := b })

def position (l : SpotLight) : Option Vec3 :=
  (l.light_buffer.get 6).bind (fun p =>
    match p with
    | p0 :: p1 :: p2 :: _ => some (vec3 p0 p1 p2)
    | _ => none)

def set_cutoff (l : SpotLight) (cutoff : ℝ) : Option SpotLight :=
  (l.light_buffer.update 7 [cutoff]).map (fun b => { l with light_buffer := b })

/-- SpotLight set_direction stores the normalized direction. -/
noncomputable def set_direction (l : SpotLight) (direction : Vec3) : Option SpotLight :=
  (l.light_buffer.update 8 direction.normalize.to_slice).map
    (fun b => { l with light_buffer := b })

def direction (l : SpotLight) : Option Vec3 :=
  (l.light_buffer.get 8).bind (fun d =>
    match d with
    | d0 :: d1 :: d2 :: _ => some (vec3 d0 d1 d2)
    | _ => none)

noncomputable def new (intensity : ℝ) (color position direction : Vec3) (cutoff : ℝ)
    (attenuation_constant attenuation_linear attenuation_exponential : ℝ) :
    Option SpotLight :=
  let light : SpotLight :=
    ⟨UniformBuffer.new [3, 1, 1, 1, 1, 1, 3, 1, 3, 1, 16], RenderTarget.new 0, none, none⟩
  (light.set_intensity intensity).bind (fun light =>
    (light.set_color color).bind (fun light =>
      (light.set_cutoff cutoff).bind (fun light =>
        (light.set_direction direction).bind (fun light =>
          (light.set_position position).bind (fun light =>
            light.set_attenuation attenuation_constant attenuation_linear
              attenuation_exponential)))))

def clear_shadow_map (l : SpotLight) : SpotLight :=
  { l with shadow_camera := none, shadow_texture := none }

/-- Embedding of SpotLight generate_shadow_map; cutoff is read back from
field 7 of the buffer, indexed at its first entry. -/
noncomputable def generate_shadow_map (l : SpotLight)
    (frustrum_depth : ℝ) (texture_size : ℕ) : Option SpotLight :=
  (l.position).bind (fun position =>
    (l.direction).bind (fun direction =>
      let up := compute_up_direction direction
      (l.light_buffer.get 7).bind (fun cutoffField =>
        cutoffField.head?.bind (fun cutoff =>
          let camera := Camera.new_perspective position (position.add direction) up
              cutoff 1.0 0.1 frustrum_depth
          (l.light_buffer.update 10 (shadow_matrix camera).to_slice).bind (fun buffer =>
            some { l with
                    shadow_camera := some camera,
                    light_buffer := buffer,
                    shadow_texture :=
                      some (Texture2D.new_as_depth_target texture_size texture_size) })))))

def shadow_map (l : SpotLight) : Option Texture2D := l.shadow_texture

end SpotLight

/-- The public operations of a DirectionalLight after construction, used
to state the shadow state invariant over arbitrary call sequences. -/
inductive DirOp where
  | setColor (color : Vec3)
  | setIntensity (intensity : ℝ)
  | setDirection (direction : Vec3)
  | generateShadowMap (target : Vec3)
      (frustrum_width frustrum_height frustrum_depth : ℝ)
      (texture_width texture_height : ℕ)
  | clearShadowMap

/-- One DirectionalLight operation as a state transition; none is a Rust
panic. -/
noncomputable def dirStep (l : DirectionalLight) : DirOp → Option DirectionalLight
  | .setColor c => l.set_color c
  | .setIntensity i => l.set_intensity i
  | .setDirection d => l.set_direction d
  | .generateShadowMap t w h d tw th => l.generate_shadow_map t w h d tw th
  | .clearShadowMap => some l.clear_shadow_map

/-- A sequence of DirectionalLight operations. -/
noncomputable def dirRun (l : DirectionalLight) : List DirOp → Option DirectionalLight
  | [] => some l
  | op :: ops => (dirStep l op).bind (fun l' => dirRun l' ops)

/-- The public operations of a SpotLight after construction. -/
inductive SpotOp where
  | setColor (color : Vec3)
  | setIntensity (intensity : ℝ)
  | setAttenuation (constant linear exponential : ℝ)
  | setPosition (position : Vec3)
  | setCutoff (cutoff : ℝ)
  | setDirection (direction : Vec3)
  | generateShadowMap (frustrum_depth : ℝ) (texture_size : ℕ)
  | clearShadowMap

/-- One SpotLight operation as a state transition. -/
noncomputable def spotStep (l : SpotLight) : SpotOp → Option SpotLight
  | .setColor c => l.set_color c
  | .setIntensity i => l.set_intensity i
  | .setAttenuation c li e => l.set_attenuation c li e
  | .setPosition p => l.set_position p
  | .setCutoff c => l.set_cutoff c
  | .setDirection d => l.set_direction d
  | .generateShadowMap d ts => l.generate_shadow_map d ts
  | .clearShadowMap => some l.clear_shadow_map

/-- A sequence of SpotLight operations. -/
noncomputable def spotRun (l : SpotLight) : List SpotOp → Option SpotLight
  | [] => some l
  | op :: ops => (spotStep l op).bind (fun l' => spotRun l' ops)

/-
Embedding of src/io/gltf.rs.  The input side is the surface of the gltf
crate that parse_tree and parse_texture read: nodes with an optional
mesh and children, primitives with optional attribute streams and a
material, materials with pbr factors and optional texture infos, and
image sources that are either an external URI or an embedded buffer
view.  Rust panics (the unimplemented macro invocation on a strided
view, and slice indexing out of bounds) are explicit error values, since
a panic never returns pixel data either.
-/

/-- Failure of the glTF extraction: a propagated IO or parse error, the
explicit unimplemented panic on a strided embedded view, or an out of
bounds buffer index panic. -/
inductive GltfError where
  | ioError
  | unimplementedPanic
  | indexPanic

/-- An embedded buffer view as read by parse_texture: buffer index, byte
offset, byte length and optional byte stride. -/
structure GBufferView where
  buffer : ℕ
  offset : ℕ
  viewLength : ℕ
  stride : Option ℕ

/-- The source of a glTF image: an external URI or an embedded view. -/
inductive GImageSource where
  | uri (u : String)
  | view (v : GBufferView)

/-- A glTF image, exposing its source. -/
structure GImage where
  source : GImageSource

/-- A glTF texture, exposing its source image. -/
structure GTexture where
  source : GImage

/-- A glTF texture info, exposing its texture. -/
structure GTextureInfo where
  texture : GTexture

/-- The fields of a glTF material that parse_tree reads. -/
structure GMaterial where
  name : Option String
  index : Option ℕ
  base_color_factor : ℝ × ℝ × ℝ × ℝ
  base_color_texture : Option GTextureInfo
  metallic_roughness_texture : Option GTextureInfo
  metallic_factor : ℝ
  roughness_factor : ℝ

/-- Primitive indices in one of the three source integer widths. -/
inductive Indices where
  | u8 (l : List ℕ)
  | u16 (l : List ℕ)
  | u32 (l : List ℕ)

/-- A mesh primitive: the attribute streams the reader yields (none when
the accessor is absent) and the resolved material. -/
structure GPrimitive where
  positions : Option (List (ℝ × ℝ × ℝ))
  normals : Option (List (ℝ × ℝ × ℝ))
  indices : Option Indices
  colors : Option (List (ℕ × ℕ × ℕ))
  tex_coords : Option (List (ℝ × ℝ))
  material : GMaterial

/-- A glTF mesh: optional name, index and primitives. -/
structure GMesh where
  name : Option String
  index : ℕ
  primitives : List GPrimitive

/-- A glTF scene node: an optional mesh and child nodes. -/
inductive GNode where
  | mk (mesh : Option GMesh) (children : List GNode)

def GNode.mesh : GNode → Option GMesh
  | .mk m _ => m

def GNode.children : GNode → List GNode
  | .mk _ c => c

/-- The engine neutral texture the loader produces; the claims only use
that one was produced, so the model keeps the decoded bytes. -/
structure CPUTexture where
  bytes : List ℕ

/-- The engine neutral material descriptor produced by parse_tree. -/
structure CPUMaterial where
  name : String
  color : Option (ℝ × ℝ × ℝ × ℝ)
  color_texture : Option CPUTexture
  metallic_factor : Option ℝ
  roughness_factor : Option ℝ
  metallic_roughness_texture : Option CPUTexture
  diffuse_intensity : Option ℝ
  specular_intensity : Option ℝ
  specular_power : Option ℝ

/-- The engine neutral mesh descriptor produced by parse_tree. -/
structure CPUMesh where
  name : String
  positions : List ℝ
  normals : Option (List ℝ)
  indices : Option Indices
  colors : Option (List ℕ)
  uvs : Option (List ℝ)
  material_name : Option String

/-- The environment of the loader: the image decoding the Loaded helper
and the image crate perform outside this file s sources. -/
structure GEnv where
  image : String → Except GltfError CPUTexture
  image_from_bytes : List ℕ → Except GltfError CPUTexture

/-- Path join, as path.join(uri) on the base directory. -/
def pathJoin (base uri : String) : String := base ++ "/" ++ uri

/-- One byte of an embedded buffer; out of range indexing is a Rust
panic. -/
def byteAt (buffers : List (List ℕ)) (b i : ℕ) : Except GltfError ℕ :=
  match buffers[b]? with
  | none => .error .indexPanic
  | some buf =>
    match buf[i]? with
    | none => .error .indexPanic
    | some v => .ok v

/-- The bytes of an embedded view, read one by one from offset. -/
def readViewBytes (buffers : List (List ℕ)) (v : GBufferView) : Except GltfError (List ℕ) :=
  (List.range v.viewLength).mapM (fun i => byteAt buffers v.buffer (v.offset + i))

/-- Embedding of parse_texture from gltf.rs: an external URI is loaded
through the environment; an embedded view is copied byte by byte, then
the unimplemented macro fires if the view has a stride, and otherwise
the bytes are decoded. -/
def parse_texture (env : GEnv) (path : String) (buffers : List (List ℕ))
    (info : GTextureInfo) : Except GltfError CPUTexture :=
  match info.texture.source.source with
  | .uri u => env.image (pathJoin path u)
  | .view v =>
      match readViewBytes buffers v with
      | .error e => .error e
      | .ok bytes =>
          if v.stride ≠ none then
            .error .unimplementedPanic
          else
            env.image_from_bytes bytes

/-- The material name a primitive resolves to: the material name, else
the string index i for a material index i, else default. -/
def resolvedMaterialName (m : GMaterial) : String :=
  m.name.getD (m.index.map (fun i => "index " ++ toString i) |>.getD ("default"))

/-- The mesh name used for the produced mesh descriptors. -/
def meshName (m : GMesh) : String :=
  m.name.getD ("index " ++ toString m.index)

/-- Flattening of a three component stream into a flat float array. -/
def flatten3 (l : List (ℝ × ℝ × ℝ)) : List ℝ :=
  l.flatMap (fun v => [v.1, v.2.1, v.2.2])

/-- Flattening of a three component byte stream. -/
def flatten3n (l : List (ℕ × ℕ × ℕ)) : List ℕ :=
  l.flatMap (fun v => [v.1, v.2.1, v.2.2])

/-- Flattening of a two component stream. -/
def flatten2 (l : List (ℝ × ℝ)) : List ℝ :=
  l.flatMap (fun v => [v.1, v.2])

/-- The accumulated output of parse_tree: the meshes and materials
vectors it pushes into. -/
abbrev GAcc := List CPUMesh × List CPUMaterial

/-- Embedding of the material resolution branch of parse_tree: pulls
the pbr factors and the optional textures and builds the material
descriptor under the resolved name. -/
def optTexture (env : GEnv) (path : String) (buffers : List (List ℕ)) :
    Option GTextureInfo → Except GltfError (Option CPUTexture)
  | some info => (parse_texture env path buffers info).map some
  | none => .ok none

def parse_material (env : GEnv) (path : String) (buffers : List (List ℕ))
    (pbr : GMaterial) (material_name : String) : Except GltfError CPUMaterial :=
  match optTexture env path buffers pbr.base_color_texture with
  | .error e => .error e
  | .ok color_texture =>
    match optTexture env path buffers pbr.metallic_roughness_texture with
    | .error e => .error e
    | .ok metallic_roughness_texture =>
      .ok { name := material_name,
            color := some pbr.base_color_factor,
            color_texture := color_texture,
            metallic_factor := some pbr.metallic_factor,
            roughness_factor := some pbr.roughness_factor,
            metallic_roughness_texture := metallic_roughness_texture,
            diffuse_intensity := some 1.0,
            specular_intensity := some pbr.metallic_factor,
            specular_power := some pbr.roughness_factor }

/-- Embedding of the body of the primitive loop of parse_tree: a
primitive without positions is skipped whole; otherwise the attribute
streams are flattened, the material is resolved by name and pushed
unless an already collected material has the same name (a linear scan),
and the mesh descriptor is pushed. -/
def parse_primitive (env : GEnv) (path : String) (buffers : List (List ℕ))
    (name : String) (p : GPrimitive) (acc : GAcc) : Except GltfError GAcc :=
  match p.positions with
  | none => .ok acc
  | some read_positions =>
    let positions := flatten3 read_positions
    let normals := p.normals.map flatten3
    let indices := p.indices
    let material_name := resolvedMaterialName p.material
    let parsed := acc.2.any (fun m => m.name == material_name)
    match (if !parsed then
             (parse_material env path buffers p.material material_name).map
               (fun m => acc.2 ++ [m])
           else
             .ok acc.2) with
    | .error e => .error e
    | .ok materials =>
      let colors := p.colors.map flatten3n
      let uvs := p.tex_coords.map flatten2
      .ok (acc.1 ++ [{ name := name,
                       positions := positions,
                       normals := normals,
                       indices := indices,
                       colors := colors,
                       uvs := uvs,
                       material_name := some material_name : CPUMesh }], materials)

/-- The primitive loop of parse_tree. -/
def parse_primitives (env : GEnv) (path : String) (buffers : List (List ℕ))
    (name : String) : List GPrimitive → GAcc → Except GltfError GAcc
  | [], acc => .ok acc
  | p :: ps, acc =>
      match parse_primitive env path buffers name p acc with
      | .error e => .error e
      | .ok acc' => parse_primitives env path buffers name ps acc'

/-- The mesh part of parse_tree: the primitive loop when the node has a
mesh, the unchanged accumulator otherwise. -/
def parse_node_mesh (env : GEnv) (path : String) (buffers : List (List ℕ))
    (mesh : Option GMesh) (acc : GAcc) : Except GltfError GAcc :=
  match mesh with
  | some m => parse_primitives env path buffers (meshName m) m.primitives acc
  | none => .ok acc

mutual

/-- Embedding of parse_tree from gltf.rs: the primitives of the node
mesh, if any, then the children, depth first. -/
def parse_tree (env : GEnv) (path : String) (buffers : List (List ℕ)) :
    GNode → GAcc → Except GltfError GAcc
  | .mk mesh children, acc =>
      match parse_node_mesh env path buffers mesh acc with
      | .error e => .error e
      | .ok acc' => parse_trees env path buffers children acc'

/-- The child loop of parse_tree. -/
def parse_trees (env : GEnv) (path : String) (buffers : List (List ℕ)) :
    List GNode → GAcc → Except GltfError GAcc
  | [], acc => .ok acc
  | n :: ns, acc =>
      match parse_tree env path buffers n acc with
      | .error e => .error e
      | .ok acc' => parse_trees env path buffers ns acc'

end

/-- Embedding of the gltf entry point loop: every node of every scene
run through parse_tree, starting from empty vectors. -/
def gltf_load (env : GEnv) (path : String) (buffers : List (List ℕ))
    (scenes : List (List GNode)) : Except GltfError GAcc :=
  go scenes ([], [])
where
  go : List (List GNode) → GAcc → Except GltfError GAcc
    | [], acc => .ok acc
    | s :: ss, acc =>
        match parse_trees env path buffers s acc with
        | .error e => .error e
        | .ok acc' => go ss acc'

mutual

/-- The material names that the primitives with position data of a node
tree resolve to, in traversal order. -/
def nodeMaterialNames : GNode → List String
  | .mk mesh children =>
      (match mesh with
       | some m => (m.primitives.filter (fun p => p.positions.isSome)).map
           (fun p => resolvedMaterialName p.material)
       | none => []) ++ nodesMaterialNames children

/-- The material names over a list of nodes. -/
def nodesMaterialNames : List GNode → List String
  | [] => []
  | n :: ns => nodeMaterialNames n ++ nodesMaterialNames ns

end

/-- The material names over all scenes. -/
def scenesMaterialNames (scenes : List (List GNode)) : List String :=
  scenes.flatMap nodesMaterialNames

mutual

/-- Every primitive of a node tree. -/
def nodePrimitives : GNode → List GPrimitive
  | .mk mesh children =>
      (match mesh with
       | some m => m.primitives
       | none => []) ++ nodesPrimitives children

/-- Every primitive over a list of nodes. -/
def nodesPrimitives : List GNode → List GPrimitive
  | [] => []
  | n :: ns => nodePrimitives n ++ nodesPrimitives ns

end

/-- Every primitive over all scenes. -/
def scenesPrimitives (scenes : List (List GNode)) : List GPrimitive :=
  scenes.flatMap nodesPrimitives

/-- The names of a material list. -/
def matNames (mats : List CPUMaterial) : List String := mats.map (fun m => m.name)

/-- The material names of a primitive list, restricted to primitives
with position data. -/
def listPrimNames (ps : List GPrimitive) : List String :=
  (ps.filter (fun p => p.positions.isSome)).map (fun p => resolvedMaterialName p.material)

theorem flatten3_length (l : List (ℝ × ℝ × ℝ)) : (flatten3 l).length = 3 * l.length := by
  induction l with
  | nil => rfl
  | cons v t ih => simp [flatten3, List.flatMap_cons, ih] at ih ⊢; omega

/-- A produced material descriptor carries the resolved name. -/
theorem parse_material_name {env : GEnv} {path : String} {buffers : List (List ℕ)}
    {pbr : GMaterial} {mname : String} {m : CPUMaterial}
    (h : parse_material env path buffers pbr mname = .ok m) : m.name = mname := by
  unfold parse_material at h
  cases h1 : optTexture env path buffers pbr.base_color_texture with
  | error e => rw [h1] at h; exact absurd h (by simp)
  | ok ct =>
    rw [h1] at h
    cases h2 : optTexture env path buffers pbr.metallic_roughness_texture with
    | error e => rw [h2] at h; exact absurd h (by simp)
    | ok mrt => rw [h2] at h; cases h; rfl

/-- One primitive: how the collected material names change.  A skipped
primitive changes nothing; a processed one adds its resolved name
exactly when no collected material already carries it. -/
theorem parse_primitive_matNames {env : GEnv} {path : String} {buffers : List (List ℕ)}
    {name : String} {p : GPrimitive} {acc acc' : GAcc}
    (h : parse_primitive env path buffers name p acc = .ok acc') :
    (∀ n, n ∈ matNames acc'.2 ↔ n ∈ matNames acc.2 ∨
        (p.positions.isSome ∧ n = resolvedMaterialName p.material)) ∧
    ((matNames acc.2).Nodup → (matNames acc'.2).Nodup) := by
  unfold parse_primitive at h
  cases hp : p.positions with
  | none =>
    rw [hp] at h
    cases h
    simp [hp]
  | some ps =>
    rw [hp] at h
    by_cases hparsed : acc.2.any (fun m => m.name == resolvedMaterialName p.material) = true
    · simp only [hparsed, Bool.not_true, Bool.false_eq_true, if_false] at h
      cases h
      have hmem : resolvedMaterialName p.material ∈ matNames acc.2 := by
        rcases List.any_eq_true.mp hparsed with ⟨m, hm, hbeq⟩
        have hname : m.name = resolvedMaterialName p.material := by simpa using hbeq
        exact hname ▸ List.mem_map_of_mem _ hm
      constructor
      · intro n
        constructor
        · exact Or.inl
        · rintro (hn | ⟨-, rfl⟩)
          · exact hn
          · exact hmem
      · exact id
    · simp only [hparsed, Bool.not_false, if_true] at h
      cases hm : parse_material env path buffers p.material (resolvedMaterialName p.material) with
      | error e =>
        rw [hm] at h
        exact absurd h (by simp [Except.map])
      | ok m =>
        rw [hm] at h
        simp only [Except.map] at h
        cases h
        have hname : m.name = resolvedMaterialName p.material := parse_material_name hm
        have hnames : matNames (acc.2 ++ [m]) =
            matNames acc.2 ++ [resolvedMaterialName p.material] := by
          simp [matNames, hname]
        have hnotmem : resolvedMaterialName p.material ∉ matNames acc.2 := by
          intro hcontra
          rcases List.mem_map.mp hcontra with ⟨m', hm', hname'⟩
          exact hparsed (List.any_eq_true.mpr ⟨m', hm', by simp [hname']⟩)
        constructor
        · intro n
          dsimp only
          rw [hnames]
          simp [hp]
        · intro hnd
          dsimp only
          rw [hnames]
          simp [List.nodup_append, hnd, hnotmem]

/-- One primitive: every output mesh was already collected or is the
flattening of the positions of this primitive. -/
theorem parse_primitive_meshes {env : GEnv} {path : String} {buffers : List (List ℕ)}
    {name : String} {p : GPrimitive} {acc acc' : GAcc}
    (h : parse_primitive env path buffers name p acc = .ok acc') :
    ∀ mesh ∈ acc'.1, mesh ∈ acc.1 ∨
      ∃ ps, p.positions = some ps ∧ mesh.positions = flatten3 ps := by
  unfold parse_primitive at h
  cases hp : p.positions with
  | none =>
    rw [hp] at h
    cases h
    exact fun mesh hm => Or.inl hm
  | some ps =>
    rw [hp] at h
    dsimp only at h
    cases hmat : (if !acc.2.any (fun m => m.name == resolvedMaterialName p.material) then
             (parse_material env path buffers p.material
                 (resolvedMaterialName p.material)).map (fun m => acc.2 ++ [m])
           else
             .ok acc.2) with
    | error e => rw [hmat] at h; exact absurd h (by simp)
    | ok materials =>
      rw [hmat] at h
      cases h
      intro mesh hm
      rcases List.mem_append.mp hm with hl | hr
      · exact Or.inl hl
      · rcases List.mem_singleton.mp hr with rfl
        exact Or.inr ⟨ps, rfl, rfl⟩

/-- The primitive loop: material names of the output. -/
theorem parse_primitives_matNames {env : GEnv} {path : String} {buffers : List (List ℕ)}
    {name : String} : ∀ {ps : List GPrimitive} {acc acc' : GAcc},
    parse_primitives env path buffers name ps acc = .ok acc' →
    (∀ n, n ∈ matNames acc'.2 ↔ n ∈ matNames acc.2 ∨ n ∈ listPrimNames ps) ∧
    ((matNames acc.2).Nodup → (matNames acc'.2).Nodup) := by
  intro ps
  induction ps with
  | nil =>
    intro acc acc' h
    cases h
    simp [listPrimNames]
  | cons p rest ih =>
    intro acc acc' h
    unfold parse_primitives at h
    cases hstep : parse_primitive env path buffers name p acc with
    | error e => rw [hstep] at h; exact absurd h (by simp)
    | ok acc1 =>
      rw [hstep] at h
      have hone := parse_primitive_matNames hstep
      have hrest := ih h
      constructor
      · intro n
        rw [hrest.1 n, hone.1 n]
        cases hp : p.positions with
        | none =>
          have hl : listPrimNames (p :: rest) = listPrimNames rest := by
            simp [listPrimNames, List.filter_cons, hp]
          rw [hl]
          simp [or_assoc]
        | some v =>
          have hl : listPrimNames (p :: rest) =
              resolvedMaterialName p.material :: listPrimNames rest := by
            simp [listPrimNames, List.filter_cons, hp]
          rw [hl]
          simp only [Option.isSome_some, true_and, List.mem_cons]
          tauto
      · exact fun hnd => hrest.2 (hone.2 hnd)

/-- The primitive loop: provenance of output meshes. -/
theorem parse_primitives_meshes {env : GEnv} {path : String} {buffers : List (List ℕ)}
    {name : String} : ∀ {ps : List GPrimitive} {acc acc' : GAcc},
    parse_primitives env path buffers name ps acc = .ok acc' →
    ∀ mesh ∈ acc'.1, mesh ∈ acc.1 ∨
      ∃ p ∈ ps, ∃ v, p.positions = some v ∧ mesh.positions = flatten3 v := by
  intro ps
  induction ps with
  | nil =>
    intro acc acc' h
    cases h
    exact fun mesh hm => Or.inl hm
  | cons p rest ih =>
    intro acc acc' h
    unfold parse_primitives at h
    cases hstep : parse_primitive env path buffers name p acc with
    | error e => rw [hstep] at h; exact absurd h (by simp)
    | ok acc1 =>
      rw [hstep] at h
      intro mesh hm
      rcases ih h mesh hm with hl | ⟨p', hp', v, hv, hpos⟩
      · rcases parse_primitive_meshes hstep mesh hl with hll | ⟨v, hv, hpos⟩
        · exact Or.inl hll
        · exact Or.inr ⟨p, List.mem_cons_self p rest, v, hv, hpos⟩
      · exact Or.inr ⟨p', List.mem_cons_of_mem p hp', v, hv, hpos⟩

mutual

/-- One node tree: material names of the output. -/
theorem parse_tree_matNames (env : GEnv) (path : String) (buffers : List (List ℕ)) :
    ∀ (node : GNode) (acc acc' : GAcc),
    parse_tree env path buffers node acc = .ok acc' →
    (∀ n, n ∈ matNames acc'.2 ↔ n ∈ matNames acc.2 ∨ n ∈ nodeMaterialNames node) ∧
    ((matNames acc.2).Nodup → (matNames acc'.2).Nodup)
  | .mk mesh children, acc, acc', h => by
    unfold parse_tree at h
    cases hm : parse_node_mesh env path buffers mesh acc with
    | error e => rw [hm] at h; exact absurd h (by simp)
    | ok acc1 =>
      rw [hm] at h
      have hmid : (∀ n, n ∈ matNames acc1.2 ↔ n ∈ matNames acc.2 ∨
          n ∈ (match mesh with
               | some m => listPrimNames m.primitives
               | none => [])) ∧
          ((matNames acc.2).Nodup → (matNames acc1.2).Nodup) := by
        cases mesh with
        | none =>
          unfold parse_node_mesh at hm
          cases hm
          simp
        | some m =>
          unfold parse_node_mesh at hm
          exact ⟨fun n => by rw [(parse_primitives_matNames hm).1 n],
                 (parse_primitives_matNames hm).2⟩
      have hrest := parse_trees_matNames env path buffers children acc1 acc' h
      refine ⟨fun n => ?_, fun hnd => hrest.2 (hmid.2 hnd)⟩
      rw [hrest.1 n, hmid.1 n]
      cases mesh <;> simp [nodeMaterialNames, listPrimNames, or_assoc]

/-- A node list: material names of the output. -/
theorem parse_trees_matNames (env : GEnv) (path : String) (buffers : List (List ℕ)) :
    ∀ (nodes : List GNode) (acc acc' : GAcc),
    parse_trees env path buffers nodes acc = .ok acc' →
    (∀ n, n ∈ matNames acc'.2 ↔ n ∈ matNames acc.2 ∨ n ∈ nodesMaterialNames nodes) ∧
    ((matNames acc.2).Nodup → (matNames acc'.2).Nodup)
  | [], acc, acc', h => by
    cases h
    simp [nodesMaterialNames]
  | node :: ns, acc, acc', h => by
    unfold parse_trees at h
    cases hstep : parse_tree env path buffers node acc with
    | error e => rw [hstep] at h; exact absurd h (by simp)
    | ok acc1 =>
      rw [hstep] at h
      have hone := parse_tree_matNames env path buffers node acc acc1 hstep
      have hrest := parse_trees_matNames env path buffers ns acc1 acc' h
      refine ⟨fun n => ?_, fun hnd => hrest.2 (hone.2 hnd)⟩
      rw [hrest.1 n, hone.1 n]
      simp [nodesMaterialNames, or_assoc]

end

mutual

/-- One node tree: provenance of output meshes. -/
theorem parse_tree_meshes (env : GEnv) (path : String) (buffers : List (List ℕ)) :
    ∀ (node : GNode) (acc acc' : GAcc),
    parse_tree env path buffers node acc = .ok acc' →
    ∀ mesh ∈ acc'.1, mesh ∈ acc.1 ∨
      ∃ p ∈ nodePrimitives node, ∃ v, p.positions = some v ∧ mesh.positions = flatten3 v
  | .mk meshOpt children, acc, acc', h => by
    unfold parse_tree at h
    cases hm : parse_node_mesh env path buffers meshOpt acc with
    | error e => rw [hm] at h; exact absurd h (by simp)
    | ok acc1 =>
      rw [hm] at h
      intro mesh hmem
      have hmid : mesh ∈ acc1.1 → mesh ∈ acc.1 ∨
          ∃ p ∈ nodePrimitives (GNode.mk meshOpt children), ∃ v,
            p.positions = some v ∧ mesh.positions = flatten3 v := by
        intro hl
        cases meshOpt with
        | none =>
          unfold parse_node_mesh at hm
          cases hm
          exact Or.inl hl
        | some m =>
          unfold parse_node_mesh at hm
          rcases parse_primitives_meshes hm mesh hl with h1 | ⟨p, hp, v, hv, hpos⟩
          · exact Or.inl h1
          · refine Or.inr ⟨p, ?_, v, hv, hpos⟩
            simp only [nodePrimitives, List.mem_append]
            exact Or.inl hp
      rcases parse_trees_meshes env path buffers children acc1 acc' h mesh hmem with
        hl | ⟨p, hp, v, hv, hpos⟩
      · exact hmid hl
      · refine Or.inr ⟨p, ?_, v, hv, hpos⟩
        simp only [nodePrimitives, List.mem_append]
        exact Or.inr hp

/-- A node list: provenance of output meshes. -/
theorem parse_trees_meshes (env : GEnv) (path : String) (buffers : List (List ℕ)) :
    ∀ (nodes : List GNode) (acc acc' : GAcc),
    parse_trees env path buffers nodes acc = .ok acc' →
    ∀ mesh ∈ acc'.1, mesh ∈ acc.1 ∨
      ∃ p ∈ nodesPrimitives nodes, ∃ v, p.positions = some v ∧ mesh.positions = flatten3 v
  | [], acc, acc', h => by
    cases h
    exact fun mesh hm => Or.inl hm
  | node :: ns, acc, acc', h => by
    unfold parse_trees at h
    cases hstep : parse_tree env path buffers node acc with
    | error e => rw [hstep] at h; exact absurd h (by simp)
    | ok acc1 =>
      rw [hstep] at h
      intro mesh hmem
      rcases parse_trees_meshes env path buffers ns acc1 acc' h mesh hmem with
        hl | ⟨p, hp, v, hv, hpos⟩
      · rcases parse_tree_meshes env path buffers node acc acc1 hstep mesh hl with
          h1 | ⟨p, hp, v, hv, hpos⟩
        · exact Or.inl h1
        · exact Or.inr ⟨p, by simpa [nodesPrimitives] using Or.inl hp, v, hv, hpos⟩
      · exact Or.inr ⟨p, by simpa [nodesPrimitives] using Or.inr hp, v, hv, hpos⟩

end

/-- The scene loop: material names of the output. -/
theorem gltf_go_matNames (env : GEnv) (path : String) (buffers : List (List ℕ)) :
    ∀ (scenes : List (List GNode)) (acc acc' : GAcc),
    gltf_load.go env path buffers scenes acc = .ok acc' →
    (∀ n, n ∈ matNames acc'.2 ↔ n ∈ matNames acc.2 ∨ n ∈ scenesMaterialNames scenes) ∧
    ((matNames acc.2).Nodup → (matNames acc'.2).Nodup) := by
  intro scenes
  induction scenes with
  | nil =>
    intro acc acc' h
    cases h
    simp [scenesMaterialNames]
  | cons s ss ih =>
    intro acc acc' h
    unfold gltf_load.go at h
    cases hstep : parse_trees env path buffers s acc with
    | error e => rw [hstep] at h; exact absurd h (by simp)
    | ok acc1 =>
      rw [hstep] at h
      have hone := parse_trees_matNames env path buffers s acc acc1 hstep
      have hrest := ih acc1 acc' h
      refine ⟨fun n => ?_, fun hnd => hrest.2 (hone.2 hnd)⟩
      rw [hrest.1 n, hone.1 n]
      simp [scenesMaterialNames, or_assoc]

/-- The scene loop: provenance of output meshes. -/
theorem gltf_go_meshes (env : GEnv) (path : String) (buffers : List (List ℕ)) :
    ∀ (scenes : List (List GNode)) (acc acc' : GAcc),
    gltf_load.go env path buffers scenes acc = .ok acc' →
    ∀ mesh ∈ acc'.1, mesh ∈ acc.1 ∨
      ∃ p ∈ scenesPrimitives scenes, ∃ v, p.positions = some v ∧
        mesh.positions = flatten3 v := by
  intro scenes
  induction scenes with
  | nil =>
    intro acc acc' h
    cases h
    exact fun mesh hm => Or.inl hm
  | cons s ss ih =>
    intro acc acc' h
    unfold gltf_load.go at h
    cases hstep : parse_trees env path buffers s acc with
    | error e => rw [hstep] at h; exact absurd h (by simp)
    | ok acc1 =>
      rw [hstep] at h
      intro mesh hmem
      rcases ih acc1 acc' h mesh hmem with hl | ⟨p, hp, v, hv, hpos⟩
      · rcases parse_trees_meshes env path buffers s acc acc1 hstep mesh hl with
          h1 | ⟨p, hp, v, hv, hpos⟩
        · exact Or.inl h1
        · exact Or.inr ⟨p, by simpa [scenesPrimitives] using Or.inl hp, v, hv, hpos⟩
      · refine Or.inr ⟨p, ?_, v, hv, hpos⟩
        simp only [scenesPrimitives, List.flatMap_cons, List.mem_append]
        right
        simpa [scenesPrimitives] using hp

/-- Claim C3: for every glTF scene in which two or more mesh primitives
resolve to the same material name, the extraction produces exactly one
material descriptor for that name (deduplication by first seen name
using a linear scan over already collected materials). -/
theorem c3_material_dedup_by_name (env : GEnv) (path : String)
    (buffers : List (List ℕ)) (scenes : List (List GNode))
    (ms : List CPUMesh) (mats : List CPUMaterial) (n : String)
    (h : gltf_load env path buffers scenes = .ok (ms, mats))
    (h2 : 2 ≤ (scenesMaterialNames scenes).count n) :
    (matNames mats).count n = 1 := by
  unfold gltf_load at h
  have hgo := gltf_go_matNames env path buffers scenes ([], []) (ms, mats) h
  have hmem : n ∈ matNames mats := by
    have hcol : n ∈ scenesMaterialNames scenes := by
      have : 0 < (scenesMaterialNames scenes).count n := by omega
      exact List.count_pos_iff.mp this
    exact (hgo.1 n).mpr (Or.inr hcol)
  have hnd : (matNames mats).Nodup := hgo.2 (by simp [matNames])
  exact List.count_eq_one_of_mem hnd hmem

/-- Witness scene for the glTF claims: one node with one mesh holding
two primitives that resolve to the same material name. -/
def witMaterial : GMaterial :=
  { name := some ("sharedmat"), index := none, base_color_factor := (1, 1, 1, 1),
    base_color_texture := none, metallic_roughness_texture := none,
    metallic_factor := 0, roughness_factor := 0 }

def witPrimitive : GPrimitive :=
  { positions := some [(0, 0, 0), (1, 0, 0)], normals := none, indices := none,
    colors := none, tex_coords := none, material := witMaterial }

def witNode : GNode := .mk (some ⟨none, 0, [witPrimitive, witPrimitive]⟩) []

def witEnv : GEnv := ⟨fun _ => .error .ioError, fun _ => .error .ioError⟩

/-- The mesh descriptor the witness scene produces, twice. -/
def witMeshOut : CPUMesh :=
  { name := "index 0", positions := [0, 0, 0, 1, 0, 0], normals := none,
    indices := none, colors := none, uvs := none, material_name := some ("sharedmat") }

/-- The single material descriptor the witness scene produces. -/
def witMatOut : CPUMaterial :=
  { name := "sharedmat", color := some (1, 1, 1, 1), color_texture := none,
    metallic_factor := some 0, roughness_factor := some 0,
    metallic_roughness_texture := none, diffuse_intensity := some 1.0,
    specular_intensity := some 0, specular_power := some 0 }

/-- The witness scene evaluated through the loader. -/
theorem witScene_load : gltf_load witEnv ("base") [] [[witNode]] =
    .ok ([witMeshOut, witMeshOut], [witMatOut]) := by
  simp [gltf_load, gltf_load.go, parse_trees, parse_tree, parse_node_mesh,
    parse_primitives, parse_primitive, parse_material, optTexture, witNode,
    witPrimitive, witMaterial, resolvedMaterialName, meshName, flatten3,
    Except.map, witMeshOut, witMatOut,
    show toString (0 : ℕ) = ("0") from rfl,
    show ("index " ++ "0") = ("index 0") from rfl]

theorem c3_witness :
    2 ≤ (scenesMaterialNames [[witNode]]).count ("sharedmat") ∧
    (matNames [witMatOut]).count ("sharedmat") = 1 :=
  ⟨by simp [scenesMaterialNames, nodesMaterialNames, nodeMaterialNames, witNode,
      listPrimNames, witPrimitive, witMaterial, resolvedMaterialName],
   c3_material_dedup_by_name witEnv ("base") [] [[witNode]] _ _ ("sharedmat")
     witScene_load
     (by simp [scenesMaterialNames, nodesMaterialNames, nodeMaterialNames, witNode,
        listPrimNames, witPrimitive, witMaterial, resolvedMaterialName])⟩

/-- Claim C4: for every embedded buffer view texture whose view has a
non null byte stride, parse_texture fails (the unimplemented panic, or
an earlier indexing panic while copying the bytes) rather than return
pixel data; it never returns a texture decoded from a strided embedded
view. -/
theorem c4_strided_embedded_view_fails (env : GEnv) (path : String)
    (buffers : List (List ℕ)) (info : GTextureInfo) (v : GBufferView)
    (hv : info.texture.source.source = .view v) (hs : v.stride ≠ none) :
    (parse_texture env path buffers info).isOk = false := by
  unfold parse_texture
  rw [hv]
  cases h : readViewBytes buffers v with
  | error e => simp [h, Except.isOk, Except.toBool]
  | ok bytes => simp [h, hs, Except.isOk, Except.toBool]

/-- Witness texture info: an embedded view with stride 4. -/
def witStridedInfo : GTextureInfo := ⟨⟨⟨.view ⟨0, 0, 2, some 4⟩⟩⟩⟩

theorem c4_witness :
    witStridedInfo.texture.source.source = GImageSource.view ⟨0, 0, 2, some 4⟩ ∧
    (some 4 : Option ℕ) ≠ none ∧
    (parse_texture witEnv ("base") [[9, 9, 9, 9]] witStridedInfo).isOk = false :=
  ⟨rfl, by simp,
   c4_strided_embedded_view_fails witEnv ("base") [[9, 9, 9, 9]] witStridedInfo
     ⟨0, 0, 2, some 4⟩ rfl (by simp)⟩

/-- Claim C10: a glTF mesh primitive without a position attribute is
skipped entirely, producing no mesh and no material descriptor; every
produced mesh descriptor comes from a primitive with position data and
its positions array has three times as many entries as the source has
positions. -/
theorem c10_positionless_primitives_skipped :
    (∀ (env : GEnv) (path : String) (buffers : List (List ℕ)) (name : String)
       (p : GPrimitive) (acc : GAcc), p.positions = none →
       parse_primitive env path buffers name p acc = .ok acc) ∧
    (∀ (env : GEnv) (path : String) (buffers : List (List ℕ))
       (scenes : List (List GNode)) (ms : List CPUMesh) (mats : List CPUMaterial),
       gltf_load env path buffers scenes = .ok (ms, mats) →
       ∀ mesh ∈ ms, ∃ p ∈ scenesPrimitives scenes, ∃ v,
         p.positions = some v ∧ mesh.positions.length = 3 * v.length) := by
  constructor
  · intro env path buffers name p acc hp
    unfold parse_primitive
    rw [hp]
  · intro env path buffers scenes ms mats h mesh hm
    unfold gltf_load at h
    rcases gltf_go_meshes env path buffers scenes ([], []) (ms, mats) h mesh hm with
      hl | ⟨p, hp, v, hv, hpos⟩
    · exact absurd hl (List.not_mem_nil mesh)
    · exact ⟨p, hp, v, hv, by rw [hpos, flatten3_length]⟩

/-- Witness primitive with no position attribute. -/
def witSkipPrimitive : GPrimitive :=
  { positions := none, normals := none, indices := none, colors := none,
    tex_coords := none, material := witMaterial }

theorem c10_witness :
    parse_primitive witEnv ("base") [] ("m") witSkipPrimitive ([], []) = .ok ([], []) ∧
    (∃ p ∈ scenesPrimitives [[witNode]], ∃ v, p.positions = some v ∧
       witMeshOut.positions.length = 3 * v.length) :=
  ⟨c10_positionless_primitives_skipped.1 witEnv ("base") [] ("m") witSkipPrimitive
     ([], []) rfl,
   c10_positionless_primitives_skipped.2 witEnv ("base") [] [[witNode]] _ _
     witScene_load witMeshOut (by simp)⟩

/-- A buffer field populated with at least three entries. -/
def fieldShape3 (b : UniformBuffer) (i : ℕ) : Prop :=
  ∃ x y z rest, b.get i = some (x :: y :: z :: rest)

/-- A buffer field populated with at least one entry. -/
def fieldShape1 (b : UniformBuffer) (i : ℕ) : Prop :=
  ∃ x rest, b.get i = some (x :: rest)

/-- The shape every constructed DirectionalLight has: the layout fixed
by new, a fully populated data list, and a direction field the getter
can read. -/
def DirWF (l : DirectionalLight) : Prop :=
  l.light_buffer.sizes = [3, 1, 3, 1, 16] ∧ l.light_buffer.data.length = 5 ∧
  fieldShape3 l.light_buffer 2

/-- The shape every constructed SpotLight has. -/
def SpotWF (l : SpotLight) : Prop :=
  l.light_buffer.sizes = [3, 1, 1, 1, 1, 1, 3, 1, 3, 1, 16] ∧
  l.light_buffer.data.length = 11 ∧
  fieldShape3 l.light_buffer 6 ∧ fieldShape1 l.light_buffer 7 ∧
  fieldShape3 l.light_buffer 8

/-- The shadow camera a DirectionalLight builds for a direction, target
and frustum. -/
noncomputable def dirShadowCamera (dir target : Vec3) (w h d : ℝ) : Camera :=
  Camera.new_orthographic (target.sub ((dir.normalize.smul 0.5).smul d)) target
    (compute_up_direction dir) w h d

/-- The shadow camera a SpotLight builds. -/
noncomputable def spotShadowCamera (pos dir : Vec3) (cutoff d : ℝ) : Camera :=
  Camera.new_perspective pos (pos.add dir) (compute_up_direction dir) cutoff 1.0 0.1 d

/-- Full characterization of a successful DirectionalLight
generate_shadow_map. -/
theorem dir_generate_eq {l : DirectionalLight} {dir : Vec3}
    (hdir : l.direction = some dir) (hsz : l.light_buffer.sizes = [3, 1, 3, 1, 16])
    (target : Vec3) (w h d : ℝ) (tw th : ℕ) :
    l.generate_shadow_map target w h d tw th =
      some { light_buffer := ⟨l.light_buffer.sizes, l.light_buffer.data.set 4
                (shadow_matrix (dirShadowCamera dir target w h d)).to_slice⟩,
             shadow_rendertarget := l.shadow_rendertarget,
             shadow_texture := some ⟨tw, th⟩,
             shadow_camera := some (dirShadowCamera dir target w h d) } := by
  unfold DirectionalLight.generate_shadow_map
  rw [hdir]
  unfold UniformBuffer.update
  rw [hsz]
  simp [Option.bind, Mat4.to_slice_length16, dirShadowCamera, Camera.new_orthographic,
    Texture2D.new_as_depth_target]

/-- Full characterization of a successful SpotLight
generate_shadow_map. -/
theorem spot_generate_eq {l : SpotLight} {pos dir : Vec3} {cut : ℝ} {crest : List ℝ}
    (hpos : l.position = some pos) (hdir : l.direction = some dir)
    (hcut : l.light_buffer.get 7 = some (cut :: crest))
    (hsz : l.light_buffer.sizes = [3, 1, 1, 1, 1, 1, 3, 1, 3, 1, 16])
    (d : ℝ) (ts : ℕ) :
    l.generate_shadow_map d ts =
      some { light_buffer := ⟨l.light_buffer.sizes, l.light_buffer.data.set 10
                (shadow_matrix (spotShadowCamera pos dir cut d)).to_slice⟩,
             shadow_rendertarget := l.shadow_rendertarget,
             shadow_texture := some ⟨ts, ts⟩,
             shadow_camera := some (spotShadowCamera pos dir cut d) } := by
  unfold SpotLight.generate_shadow_map
  rw [hpos, hdir, hcut]
  unfold UniformBuffer.update
  rw [hsz]
  simp [Option.bind, Mat4.to_slice_length16, spotShadowCamera, Camera.new_perspective,
    Texture2D.new_as_depth_target]

/-- Claim C1: for every DirectionalLight (given a target point, frustum
dimensions and texture resolution) and every SpotLight (given a frustum
depth and texture size), calling generate_shadow_map and then
shadow_map() returns some texture whose dimensions equal the requested
resolution, and calling clear_shadow_map and then shadow_map() returns
none. -/
theorem c1_shadow_map_lifecycle :
    (∀ (dl : DirectionalLight) (target : Vec3) (w h d : ℝ) (tw th : ℕ), DirWF dl →
       ∃ dl', dl.generate_shadow_map target w h d tw th = some dl' ∧
         dl'.shadow_map = some ⟨tw, th⟩) ∧
    (∀ dl : DirectionalLight, dl.clear_shadow_map.shadow_map = none) ∧
    (∀ (sl : SpotLight) (d : ℝ) (ts : ℕ), SpotWF sl →
       ∃ sl', sl.generate_shadow_map d ts = some sl' ∧
         sl'.shadow_map = some ⟨ts, ts⟩) ∧
    (∀ sl : SpotLight, sl.clear_shadow_map.shadow_map = none) := by
  refine ⟨?_, fun dl => rfl, ?_, fun sl => rfl⟩
  · rintro dl target w h d tw th ⟨hsz, hlen, x, y, z, rest, hget⟩
    have hdir : dl.direction = some (vec3 x y z) := by
      unfold DirectionalLight.direction
      rw [hget]
      rfl
    exact ⟨_, dir_generate_eq hdir hsz target w h d tw th, rfl⟩
  · rintro sl d ts ⟨hsz, hlen, ⟨px, py, pz, prest, hp⟩, ⟨cx, crest, hc⟩,
      ⟨dx, dy, dz, drest, hd⟩⟩
    have hpos : sl.position = some (vec3 px py pz) := by
      unfold SpotLight.position
      rw [hp]
      rfl
    have hdir : sl.direction = some (vec3 dx dy dz) := by
      unfold SpotLight.direction
      rw [hd]
      rfl
    exact ⟨_, spot_generate_eq hpos hdir hc hsz d ts, rfl⟩

/-- A concrete wellformed DirectionalLight, as new constructs one. -/
def witDirLight : DirectionalLight :=
  ⟨⟨[3, 1, 3, 1, 16], [[1, 1, 1], [1], [0, 0, 1], [0], List.replicate 16 0]⟩,
   RenderTarget.new 0, none, none⟩

/-- A concrete wellformed SpotLight. -/
def witSpotLight : SpotLight :=
  ⟨⟨[3, 1, 1, 1, 1, 1, 3, 1, 3, 1, 16],
    [[1, 1, 1], [1], [1], [0], [0], [0], [2, 0, 0], [30], [0, 0, 1], [0],
     List.replicate 16 0]⟩,
   RenderTarget.new 0, none, none⟩

theorem c1_witness :
    DirWF witDirLight ∧ SpotWF witSpotLight ∧
    (∃ dl', witDirLight.generate_shadow_map (vec3 0 0 0) 2 2 2 7 9 = some dl' ∧
       dl'.shadow_map = some ⟨7, 9⟩) ∧
    (∃ sl', witSpotLight.generate_shadow_map 5 11 = some sl' ∧
       sl'.shadow_map = some ⟨11, 11⟩) :=
  ⟨⟨rfl, rfl, 0, 0, 1, [], rfl⟩,
   ⟨rfl, rfl, ⟨2, 0, 0, [], rfl⟩, ⟨30, [], rfl⟩, ⟨0, 0, 1, [], rfl⟩⟩,
   c1_shadow_map_lifecycle.1 witDirLight (vec3 0 0 0) 2 2 2 7 9
     ⟨rfl, rfl, 0, 0, 1, [], rfl⟩,
   c1_shadow_map_lifecycle.2.2.1 witSpotLight 5 11
     ⟨rfl, rfl, ⟨2, 0, 0, [], rfl⟩, ⟨30, [], rfl⟩, ⟨0, 0, 1, [], rfl⟩⟩⟩

/-- The all or nothing shadow state of a DirectionalLight: camera and
texture present together, and field 4 holding the shadow matrix of the
camera whenever present. -/
def DirShadowInv (l : DirectionalLight) : Prop :=
  (l.shadow_camera.isSome ↔ l.shadow_texture.isSome) ∧
  (∀ cam, l.shadow_camera = some cam →
     l.light_buffer.get 4 = some (shadow_matrix cam).to_slice)

/-- The all or nothing shadow state of a SpotLight, with the matrix in
field 10. -/
def SpotShadowInv (l : SpotLight) : Prop :=
  (l.shadow_camera.isSome ↔ l.shadow_texture.isSome) ∧
  (∀ cam, l.shadow_camera = some cam →
     l.light_buffer.get 10 = some (shadow_matrix cam).to_slice)

/-- One DirectionalLight operation preserves wellformedness and the
shadow state invariant. -/
theorem dirStep_preserves {l l' : DirectionalLight} {op : DirOp}
    (hwf : DirWF l) (hinv : DirShadowInv l) (h : dirStep l op = some l') :
    DirWF l' ∧ DirShadowInv l' := by
  obtain ⟨hsz, hlen, hshape⟩ := hwf
  obtain ⟨hiff, hmat⟩ := hinv
  cases op with
  | setColor c =>
    replace h : (l.light_buffer.update 0 c.to_slice).map
        (fun b => { l with light_buffer := b }) = some l' := h
    cases hu : l.light_buffer.update 0 c.to_slice with
    | none => rw [hu] at h; exact absurd h (by simp)
    | some b =>
      rw [hu] at h
      cases h
      dsimp only
      refine ⟨⟨by rw [UniformBuffer.update_sizes hu, hsz], by rw [UniformBuffer.update_length hu, hlen], ?_⟩,
              hiff, fun cam hc => ?_⟩
      · obtain ⟨x, y, z, rest, hg⟩ := hshape
        exact ⟨x, y, z, rest, by rw [UniformBuffer.get_update_ne hu (by omega), hg]⟩
      · rw [UniformBuffer.get_update_ne hu (by omega)]
        exact hmat cam hc
  | setIntensity i =>
    replace h : (l.light_buffer.update 1 [i]).map
        (fun b => { l with light_buffer := b }) = some l' := h
    cases hu : l.light_buffer.update 1 [i] with
    | none => rw [hu] at h; exact absurd h (by simp)
    | some b =>
      rw [hu] at h
      cases h
      dsimp only
      refine ⟨⟨by rw [UniformBuffer.update_sizes hu, hsz], by rw [UniformBuffer.update_length hu, hlen], ?_⟩,
              hiff, fun cam hc => ?_⟩
      · obtain ⟨x, y, z, rest, hg⟩ := hshape
        exact ⟨x, y, z, rest, by rw [UniformBuffer.get_update_ne hu (by omega), hg]⟩
      · rw [UniformBuffer.get_update_ne hu (by omega)]
        exact hmat cam hc
  | setDirection dv =>
    replace h : (l.light_buffer.update 2 dv.to_slice).map
        (fun b => { l with light_buffer := b }) = some l' := h
    cases hu : l.light_buffer.update 2 dv.to_slice with
    | none => rw [hu] at h; exact absurd h (by simp)
    | some b =>
      rw [hu] at h
      cases h
      dsimp only
      refine ⟨⟨by rw [UniformBuffer.update_sizes hu, hsz], by rw [UniformBuffer.update_length hu, hlen], ?_⟩,
              hiff, fun cam hc => ?_⟩
      · exact ⟨dv.x, dv.y, dv.z, [], by rw [UniformBuffer.get_update_eq hu (by omega)]; rfl⟩
      · rw [UniformBuffer.get_update_ne hu (by omega)]
        exact hmat cam hc
  | generateShadowMap target w hh d tw th =>
    replace h : l.generate_shadow_map target w hh d tw th = some l' := h
    obtain ⟨x, y, z, rest, hg⟩ := hshape
    have hdir : l.direction = some (vec3 x y z) := by
      unfold DirectionalLight.direction
      rw [hg]
      rfl
    rw [dir_generate_eq hdir hsz target w hh d tw th] at h
    cases h
    refine ⟨⟨hsz, by simpa using hlen, ?_⟩, by simp, fun cam hc => ?_⟩
    · refine ⟨x, y, z, rest, ?_⟩
      show (l.light_buffer.data.set 4 _)[2]? = _
      rw [List.getElem?_set_ne (by omega)]
      exact hg
    · cases hc
      show (l.light_buffer.data.set 4 _)[4]? = _
      rw [List.getElem?_set_self (by omega)]
  | clearShadowMap =>
    replace h : some l.clear_shadow_map = some l' := h
    cases h
    exact ⟨⟨hsz, hlen, hshape⟩, by simp [DirectionalLight.clear_shadow_map],
           by simp [DirectionalLight.clear_shadow_map]⟩

/-- A sequence of DirectionalLight operations preserves the invariant. -/
theorem dirRun_preserves : ∀ {ops : List DirOp} {l l' : DirectionalLight},
    DirWF l → DirShadowInv l → dirRun l ops = some l' →
    DirWF l' ∧ DirShadowInv l' := by
  intro ops
  induction ops with
  | nil =>
    intro l l' hwf hinv h
    cases h
    exact ⟨hwf, hinv⟩
  | cons op rest ih =>
    intro l l' hwf hinv h
    unfold dirRun at h
    cases hstep : dirStep l op with
    | none => rw [hstep] at h; exact absurd h (by simp)
    | some l1 =>
      rw [hstep] at h
      obtain ⟨hwf1, hinv1⟩ := dirStep_preserves hwf hinv hstep
      exact ih hwf1 hinv1 h

/-- A SpotLight buffer update below field 5 preserves wellformedness
and the shadow state invariant. -/
theorem spot_update_preserves {l : SpotLight} {i : ℕ} {s : List ℝ} {b : UniformBuffer}
    (hwf : SpotWF l) (hinv : SpotShadowInv l)
    (hu : l.light_buffer.update i s = some b) (hi : i < 5) :
    SpotWF { l with light_buffer := b } ∧
    SpotShadowInv { l with light_buffer := b } := by
  obtain ⟨hsz, hlen, ⟨p1, p2, p3, pr, hp⟩, ⟨c1, cr, hc⟩, ⟨d1, d2, d3, dr, hd⟩⟩ := hwf
  obtain ⟨hiff, hmat⟩ := hinv
  refine ⟨⟨by rw [UniformBuffer.update_sizes hu, hsz],
           by rw [UniformBuffer.update_length hu, hlen],
           ⟨p1, p2, p3, pr, by rw [UniformBuffer.get_update_ne hu (by omega), hp]⟩,
           ⟨c1, cr, by rw [UniformBuffer.get_update_ne hu (by omega), hc]⟩,
           ⟨d1, d2, d3, dr, by rw [UniformBuffer.get_update_ne hu (by omega), hd]⟩⟩,
          hiff, fun cam hcam => ?_⟩
  rw [UniformBuffer.get_update_ne hu (by omega)]
  exact hmat cam hcam

/-- One SpotLight operation preserves wellformedness and the shadow
state invariant. -/
theorem spotStep_preserves {l l' : SpotLight} {op : SpotOp}
    (hwf : SpotWF l) (hinv : SpotShadowInv l) (h : spotStep l op = some l') :
    SpotWF l' ∧ SpotShadowInv l' := by
  cases op with
  | setColor c =>
    replace h : (l.light_buffer.update 0 c.to_slice).map
        (fun b => { l with light_buffer := b }) = some l' := h
    cases hu : l.light_buffer.update 0 c.to_slice with
    | none => rw [hu] at h; exact absurd h (by simp)
    | some b =>
      rw [hu] at h
      cases h
      exact spot_update_preserves hwf hinv hu (by omega)
  | setIntensity i =>
    replace h : (l.light_buffer.update 1 [i]).map
        (fun b => { l with light_buffer := b }) = some l' := h
    cases hu : l.light_buffer.update 1 [i] with
    | none => rw [hu] at h; exact absurd h (by simp)
    | some b =>
      rw [hu] at h
      cases h
      exact spot_update_preserves hwf hinv hu (by omega)
  | setAttenuation ac al ae =>
    replace h : ((l.light_buffer.update 2 [ac]).map
        (fun b => { l with light_buffer := b })).bind (fun l2 =>
          ((l2.light_buffer.update 3 [al]).map
            (fun b => { l2 with light_buffer := b })).bind (fun l3 =>
              (l3.light_buffer.update 4 [ae]).map
                (fun b => { l3 with light_buffer := b }))) = some l' := h
    cases hu2 : l.light_buffer.update 2 [ac] with
    | none => rw [hu2] at h; exact absurd h (by simp)
    | some b2 =>
      rw [hu2] at h
      obtain ⟨hwf2, hinv2⟩ := spot_update_preserves hwf hinv hu2 (by omega)
      dsimp only [Option.map, Option.bind] at h
      cases hu3 : b2.update 3 [al] with
      | none => rw [hu3] at h; exact absurd h (by simp)
      | some b3 =>
        rw [hu3] at h
        obtain ⟨hwf3, hinv3⟩ := spot_update_preserves
          (l := { l with light_buffer := b2 }) hwf2 hinv2 hu3 (by omega)
        dsimp only [Option.map, Option.bind] at h
        cases hu4 : b3.update 4 [ae] with
        | none => rw [hu4] at h; exact absurd h (by simp)
        | some b4 =>
          rw [hu4] at h
          cases h
          exact spot_update_preserves
            (l := { { l with light_buffer := b2 } with light_buffer := b3 })
            hwf3 hinv3 hu4 (by omega)
  | setPosition p =>
    obtain ⟨hsz, hlen, hp6, hc7, hd8⟩ := hwf
    obtain ⟨hiff, hmat⟩ := hinv
    replace h : (l.light_buffer.update 6 p.to_slice).map
        (fun b => { l with light_buffer := b }) = some l' := h
    cases hu : l.light_buffer.update 6 p.to_slice with
    | none => rw [hu] at h; exact absurd h (by simp)
    | some b =>
      rw [hu] at h
      cases h
      obtain ⟨c1, cr, hc⟩ := hc7
      obtain ⟨d1, d2, d3, dr, hd⟩ := hd8
      refine ⟨⟨by rw [UniformBuffer.update_sizes hu, hsz],
               by rw [UniformBuffer.update_length hu, hlen],
               ⟨p.x, p.y, p.z, [], by rw [UniformBuffer.get_update_eq hu (by omega)]; rfl⟩,
               ⟨c1, cr, by rw [UniformBuffer.get_update_ne hu (by omega), hc]⟩,
               ⟨d1, d2, d3, dr, by rw [UniformBuffer.get_update_ne hu (by omega), hd]⟩⟩,
              hiff, fun cam hcam => ?_⟩
      rw [UniformBuffer.get_update_ne hu (by omega)]
      exact hmat cam hcam
  | setCutoff cut =>
    obtain ⟨hsz, hlen, hp6, hc7, hd8⟩ := hwf
    obtain ⟨hiff, hmat⟩ := hinv
    replace h : (l.light_buffer.update 7 [cut]).map
        (fun b => { l with light_buffer := b }) = some l' := h
    cases hu : l.light_buffer.update 7 [cut] with
    | none => rw [hu] at h; exact absurd h (by simp)
    | some b =>
      rw [hu] at h
      cases h
      obtain ⟨p1, p2, p3, pr, hp⟩ := hp6
      obtain ⟨d1, d2, d3, dr, hd⟩ := hd8
      refine ⟨⟨by rw [UniformBuffer.update_sizes hu, hsz],
               by rw [UniformBuffer.update_length hu, hlen],
               ⟨p1, p2, p3, pr, by rw [UniformBuffer.get_update_ne hu (by omega), hp]⟩,
               ⟨cut, [], by rw [UniformBuffer.get_update_eq hu (by omega)]⟩,
               ⟨d1, d2, d3, dr, by rw [UniformBuffer.get_update_ne hu (by omega), hd]⟩⟩,
              hiff, fun cam hcam => ?_⟩
      rw [UniformBuffer.get_update_ne hu (by omega)]
      exact hmat cam hcam
  | setDirection dv =>
    obtain ⟨hsz, hlen, hp6, hc7, hd8⟩ := hwf
    obtain ⟨hiff, hmat⟩ := hinv
    replace h : (l.light_buffer.update 8 dv.normalize.to_slice).map
        (fun b => { l with light_buffer := b }) = some l' := h
    cases hu : l.light_buffer.update 8 dv.normalize.to_slice with
    | none => rw [hu] at h; exact absurd h (by simp)
    | some b =>
      rw [hu] at h
      cases h
      obtain ⟨p1, p2, p3, pr, hp⟩ := hp6
      obtain ⟨c1, cr, hc⟩ := hc7
      refine ⟨⟨by rw [UniformBuffer.update_sizes hu, hsz],
               by rw [UniformBuffer.update_length hu, hlen],
               ⟨p1, p2, p3, pr, by rw [UniformBuffer.get_update_ne hu (by omega), hp]⟩,
               ⟨c1, cr, by rw [UniformBuffer.get_update_ne hu (by omega), hc]⟩,
               ⟨dv.normalize.x, dv.normalize.y, dv.normalize.z, [],
                 by rw [UniformBuffer.get_update_eq hu (by omega)]; rfl⟩⟩,
              hiff, fun cam hcam => ?_⟩
      rw [UniformBuffer.get_update_ne hu (by omega)]
      exact hmat cam hcam
  | generateShadowMap d ts =>
    obtain ⟨hsz, hlen, ⟨p1, p2, p3, pr, hp⟩, ⟨c1, cr, hc⟩, ⟨d1, d2, d3, dr, hd⟩⟩ := hwf
    replace h : l.generate_shadow_map d ts = some l' := h
    have hpos : l.position = some (vec3 p1 p2 p3) := by
      unfold SpotLight.position
      rw [hp]
      rfl
    have hdir : l.direction = some (vec3 d1 d2 d3) := by
      unfold SpotLight.direction
      rw [hd]
      rfl
    rw [spot_generate_eq hpos hdir hc hsz d ts] at h
    cases h
    refine ⟨⟨hsz, by simpa using hlen, ?_, ?_, ?_⟩, by simp, fun cam hcam => ?_⟩
    · refine ⟨p1, p2, p3, pr, ?_⟩
      show (l.light_buffer.data.set 10 _)[6]? = _
      rw [List.getElem?_set_ne (by omega)]
      exact hp
    · refine ⟨c1, cr, ?_⟩
      show (l.light_buffer.data.set 10 _)[7]? = _
      rw [List.getElem?_set_ne (by omega)]
      exact hc
    · refine ⟨d1, d2, d3, dr, ?_⟩
      show (l.light_buffer.data.set 10 _)[8]? = _
      rw [List.getElem?_set_ne (by omega)]
      exact hd
    · cases hcam
      show (l.light_buffer.data.set 10 _)[10]? = _
      rw [List.getElem?_set_self (by omega)]
  | clearShadowMap =>
    replace h : some l.clear_shadow_map = some l' := h
    cases h
    exact ⟨hwf, by simp [SpotLight.clear_shadow_map, SpotShadowInv]⟩

/-- A sequence of SpotLight operations preserves the invariant. -/
theorem spotRun_preserves : ∀ {ops : List SpotOp} {l l' : SpotLight},
    SpotWF l → SpotShadowInv l → spotRun l ops = some l' →
    SpotWF l' ∧ SpotShadowInv l' := by
  intro ops
  induction ops with
  | nil =>
    intro l l' hwf hinv h
    cases h
    exact ⟨hwf, hinv⟩
  | cons op rest ih =>
    intro l l' hwf hinv h
    unfold spotRun at h
    cases hstep : spotStep l op with
    | none => rw [hstep] at h; exact absurd h (by simp)
    | some l1 =>
      rw [hstep] at h
      obtain ⟨hwf1, hinv1⟩ := spotStep_preserves hwf hinv hstep
      exact ih hwf1 hinv1 h

/-- Full evaluation of the DirectionalLight constructor. -/
theorem dir_new_eq (i : ℝ) (c dv : Vec3) :
    DirectionalLight.new i c dv = some
      ⟨⟨[3, 1, 3, 1, 16],
        [[c.x, c.y, c.z], [i], [dv.x, dv.y, dv.z], [0], List.replicate 16 0]⟩,
       RenderTarget.new 0, none, none⟩ := rfl

/-- Full evaluation of the SpotLight constructor. -/
theorem spot_new_eq (i : ℝ) (c p dv : Vec3) (cut ac al ae : ℝ) :
    SpotLight.new i c p dv cut ac al ae = some
      ⟨⟨[3, 1, 1, 1, 1, 1, 3, 1, 3, 1, 16],
        [[c.x, c.y, c.z], [i], [ac], [al], [ae], [0], [p.x, p.y, p.z], [cut],
         [dv.normalize.x, dv.normalize.y, dv.normalize.z], [0],
         List.replicate 16 0]⟩,
       RenderTarget.new 0, none, none⟩ := rfl

/-- Claim C2: for every DirectionalLight and SpotLight the shadow state
is all or nothing: after any sequence of operations (new, setters,
generate_shadow_map, clear_shadow_map) the shadow camera is present if
and only if the shadow texture is present, with the bias adjusted shadow
matrix in the uniform buffer whenever they are present; in particular
clear_shadow_map discards camera and texture together, never one without
the other. -/
theorem c2_shadow_state_invariant :
    (∀ (i : ℝ) (c dv : Vec3) (ops : List DirOp) (l0 l : DirectionalLight),
       DirectionalLight.new i c dv = some l0 → dirRun l0 ops = some l →
       DirShadowInv l) ∧
    (∀ (i : ℝ) (c p dv : Vec3) (cut ac al ae : ℝ) (ops : List SpotOp)
       (l0 l : SpotLight),
       SpotLight.new i c p dv cut ac al ae = some l0 → spotRun l0 ops = some l →
       SpotShadowInv l) := by
  constructor
  · intro i c dv ops l0 l h0 hrun
    rw [dir_new_eq i c dv] at h0
    cases h0
    refine (dirRun_preserves ?_ ?_ hrun).2
    · exact ⟨rfl, rfl, dv.x, dv.y, dv.z, [], rfl⟩
    · exact ⟨by simp, fun cam hcam => by simp at hcam⟩
  · intro i c p dv cut ac al ae ops l0 l h0 hrun
    rw [spot_new_eq i c p dv cut ac al ae] at h0
    cases h0
    refine (spotRun_preserves ?_ ?_ hrun).2
    · exact ⟨rfl, rfl, ⟨p.x, p.y, p.z, [], rfl⟩, ⟨cut, [], rfl⟩,
             ⟨dv.normalize.x, dv.normalize.y, dv.normalize.z, [], rfl⟩⟩
    · exact ⟨by simp, fun cam hcam => by simp at hcam⟩

/-- The DirectionalLight of the C2 witness after its operations. -/
def witRunDir : DirectionalLight :=
  ⟨⟨[3, 1, 3, 1, 16], [[1, 0, 0], [1], [0, 0, 1], [0], List.replicate 16 0]⟩,
   RenderTarget.new 0, none, none⟩

/-- A concrete SpotLight exactly as new builds one. -/
noncomputable def witNewSpot : SpotLight :=
  ⟨⟨[3, 1, 1, 1, 1, 1, 3, 1, 3, 1, 16],
    [[1, 1, 1], [1], [1], [0], [0], [0], [0, 0, 0], [30],
     [(vec3 0 0 2).normalize.x, (vec3 0 0 2).normalize.y, (vec3 0 0 2).normalize.z],
     [0], List.replicate 16 0]⟩,
   RenderTarget.new 0, none, none⟩

theorem c2_witness :
    DirectionalLight.new 1 (vec3 1 1 1) (vec3 0 0 1) = some witDirLight ∧
    dirRun witDirLight [DirOp.setColor (vec3 1 0 0), DirOp.clearShadowMap] =
      some witRunDir ∧
    DirShadowInv witRunDir ∧
    SpotLight.new 1 (vec3 1 1 1) (vec3 0 0 0) (vec3 0 0 2) 30 1 0 0 =
      some witNewSpot ∧
    spotRun witNewSpot [SpotOp.clearShadowMap] = some witNewSpot ∧
    SpotShadowInv witNewSpot :=
  ⟨rfl, rfl,
   c2_shadow_state_invariant.1 1 (vec3 1 1 1) (vec3 0 0 1)
     [DirOp.setColor (vec3 1 0 0), DirOp.clearShadowMap] witDirLight witRunDir
     rfl rfl,
   rfl, rfl,
   c2_shadow_state_invariant.2 1 (vec3 1 1 1) (vec3 0 0 0) (vec3 0 0 2) 30 1 0 0
     [SpotOp.clearShadowMap] witNewSpot witNewSpot rfl rfl⟩

/-- Claim C7: for every SpotLight and every non zero input vector d,
calling set_direction(d) and then direction() returns the normalized d
(round trip up to normalization). -/
theorem c7_spot_direction_roundtrip (sl : SpotLight) (dv : Vec3)
    (hwf : SpotWF sl) (hdv : dv ≠ vec3 0 0 0) :
    ∃ sl', sl.set_direction dv = some sl' ∧ sl'.direction = some dv.normalize := by
  obtain ⟨hsz, hlen, -, -, -⟩ := hwf
  have hu : sl.light_buffer.update 8 dv.normalize.to_slice =
      some ⟨sl.light_buffer.sizes,
            sl.light_buffer.data.set 8 dv.normalize.to_slice⟩ := by
    unfold UniformBuffer.update
    rw [hsz]
    rfl
  refine ⟨{ sl with light_buffer := ⟨sl.light_buffer.sizes,
              sl.light_buffer.data.set 8 dv.normalize.to_slice⟩ }, ?_, ?_⟩
  · unfold SpotLight.set_direction
    rw [hu]
    rfl
  · unfold SpotLight.direction UniformBuffer.get
    dsimp only
    rw [List.getElem?_set_self (by rw [hlen]; norm_num)]
    rfl

theorem c7_witness :
    SpotWF witSpotLight ∧ vec3 0 0 2 ≠ vec3 0 0 0 ∧
    (∃ sl', witSpotLight.set_direction (vec3 0 0 2) = some sl' ∧
       sl'.direction = some (vec3 0 0 2).normalize) :=
  ⟨⟨rfl, rfl, ⟨2, 0, 0, [], rfl⟩, ⟨30, [], rfl⟩, ⟨0, 0, 1, [], rfl⟩⟩,
   by norm_num [vec3, Vec3.mk.injEq],
   c7_spot_direction_roundtrip witSpotLight (vec3 0 0 2)
     ⟨rfl, rfl, ⟨2, 0, 0, [], rfl⟩, ⟨30, [], rfl⟩, ⟨0, 0, 1, [], rfl⟩⟩
     (by norm_num [vec3, Vec3.mk.injEq])⟩

/-- Claim C8: for every DirectionalLight, each setter writes the new
value to its fixed field index of the uniform buffer and each getter
deserializes from that same field, so after set_direction(d) the call
direction() returns exactly the value stored in the buffer field, the
value set, with no private copy consulted. -/
theorem c8_dir_buffer_single_source (dl : DirectionalLight) (dv c : Vec3) (i : ℝ)
    (hwf : DirWF dl) :
    (∃ dl', dl.set_direction dv = some dl' ∧
       dl'.light_buffer.get 2 = some dv.to_slice ∧ dl'.direction = some dv) ∧
    (∃ dl', dl.set_color c = some dl' ∧ dl'.light_buffer.get 0 = some c.to_slice) ∧
    (∃ dl', dl.set_intensity i = some dl' ∧ dl'.light_buffer.get 1 = some [i]) := by
  obtain ⟨hsz, hlen, -⟩ := hwf
  refine ⟨?_, ?_, ?_⟩
  · have hu : dl.light_buffer.update 2 dv.to_slice =
        some ⟨dl.light_buffer.sizes, dl.light_buffer.data.set 2 dv.to_slice⟩ := by
      unfold UniformBuffer.update
      rw [hsz]
      rfl
    refine ⟨{ dl with light_buffer := ⟨dl.light_buffer.sizes,
                dl.light_buffer.data.set 2 dv.to_slice⟩ }, ?_, ?_, ?_⟩
    · unfold DirectionalLight.set_direction
      rw [hu]
      rfl
    · unfold UniformBuffer.get
      dsimp only
      rw [List.getElem?_set_self (by rw [hlen]; norm_num)]
    · unfold DirectionalLight.direction UniformBuffer.get
      dsimp only
      rw [List.getElem?_set_self (by rw [hlen]; norm_num)]
      rfl
  · have hu : dl.light_buffer.update 0 c.to_slice =
        some ⟨dl.light_buffer.sizes, dl.light_buffer.data.set 0 c.to_slice⟩ := by
      unfold UniformBuffer.update
      rw [hsz]
      rfl
    refine ⟨{ dl with light_buffer := ⟨dl.light_buffer.sizes,
                dl.light_buffer.data.set 0 c.to_slice⟩ }, ?_, ?_⟩
    · unfold DirectionalLight.set_color
      rw [hu]
      rfl
    · unfold UniformBuffer.get
      dsimp only
      rw [List.getElem?_set_self (by rw [hlen]; norm_num)]
  · have hu : dl.light_buffer.update 1 [i] =
        some ⟨dl.light_buffer.sizes, dl.light_buffer.data.set 1 [i]⟩ := by
      unfold UniformBuffer.update
      rw [hsz]
      rfl
    refine ⟨{ dl with light_buffer := ⟨dl.light_buffer.sizes,
                dl.light_buffer.data.set 1 [i]⟩ }, ?_, ?_⟩
    · unfold DirectionalLight.set_intensity
      rw [hu]
      rfl
    · unfold UniformBuffer.get
      dsimp only
      rw [List.getElem?_set_self (by rw [hlen]; norm_num)]

theorem c8_witness :
    DirWF witDirLight ∧
    (∃ dl', witDirLight.set_direction (vec3 3 4 5) = some dl' ∧
       dl'.light_buffer.get 2 = some (vec3 3 4 5).to_slice ∧
       dl'.direction = some (vec3 3 4 5)) :=
  ⟨⟨rfl, rfl, 0, 0, 1, [], rfl⟩,
   (c8_dir_buffer_single_source witDirLight (vec3 3 4 5) (vec3 1 1 1) 1
     ⟨rfl, rfl, 0, 0, 1, [], rfl⟩).1⟩

/-- Pointwise evaluation of the cross product on explicit vectors. -/
theorem cross_eval (a1 a2 a3 b1 b2 b3 : ℝ) :
    (vec3 a1 a2 a3).cross (vec3 b1 b2 b3) =
      vec3 (a2 * b3 - a3 * b2) (a3 * b1 - a1 * b3) (a1 * b2 - a2 * b1) := rfl

/-- Pointwise evaluation of the dot product on explicit vectors. -/
theorem dot_eval (a1 a2 a3 b1 b2 b3 : ℝ) :
    (vec3 a1 a2 a3).dot (vec3 b1 b2 b3) = a1 * b1 + a2 * b2 + a3 * b3 := rfl

/-- Evaluation of normalization on an explicit vector with a known
length, including the degenerate zero length case. -/
theorem normalize_eval {a b c L : ℝ} (hL : 0 ≤ L)
    (h : a * a + b * b + c * c = L ^ 2) :
    (vec3 a b c).normalize = vec3 (a / L) (b / L) (c / L) := by
  unfold Vec3.normalize Vec3.length Vec3.dot vec3
  dsimp only
  rw [h, Real.sqrt_sq hL]

/-- Evaluation of the length of an explicit vector. -/
theorem length_eval {a b c L : ℝ} (hL : 0 ≤ L)
    (h : a * a + b * b + c * c = L ^ 2) : (vec3 a b c).length = L := by
  unfold Vec3.length Vec3.dot vec3
  dsimp only
  rw [h, Real.sqrt_sq hL]

/-- Claim C5 as stated is false: for the direction (1/2, 0, 0) the
length is positive, but the else branch crosses with the world X axis
itself, the cross product is the zero vector, and normalizing it does
not give a unit vector (NaN in Rust, the junk value zero here). -/
theorem c5_counterexample :
    0 < (vec3 (1/2) 0 0).length ∧
    ¬ ((compute_up_direction (vec3 (1/2) 0 0)).length = 1 ∧
       (compute_up_direction (vec3 (1/2) 0 0)).dot (vec3 (1/2) 0 0) = 0) := by
  have hcond : ¬ |(vec3 1 0 0).dot (vec3 (1/2) 0 0)| > 0.9 := by
    rw [dot_eval, show (1:ℝ) * (1/2) + 0 * 0 + 0 * 0 = 1/2 by ring,
        abs_of_nonneg (by norm_num : (0:ℝ) ≤ 1/2)]
    norm_num
  have hup : compute_up_direction (vec3 (1/2) 0 0) = vec3 0 0 0 := by
    unfold compute_up_direction
    rw [if_neg hcond, cross_eval,
        show vec3 ((0:ℝ) * 0 - 0 * 0) (0 * (1/2) - 1 * 0) (1 * 0 - 0 * (1/2)) =
          vec3 0 0 0 by unfold vec3; ext <;> dsimp <;> ring,
        normalize_eval le_rfl (by norm_num : (0:ℝ) * 0 + 0 * 0 + 0 * 0 = 0 ^ 2)]
    unfold vec3
    ext <;> dsimp <;> norm_num
  refine ⟨?_, ?_⟩
  · rw [length_eval (by norm_num : (0:ℝ) ≤ 1/2)
        (by norm_num : (1:ℝ)/2 * (1/2) + 0 * 0 + 0 * 0 = (1/2) ^ 2)]
    norm_num
  · rw [hup]
    rintro ⟨h1, -⟩
    rw [length_eval le_rfl (by norm_num : (0:ℝ) * 0 + 0 * 0 + 0 * 0 = 0 ^ 2)] at h1
    norm_num at h1

/-- Claim C5 amended: for every direction d with positive length that is
not a multiple (t, 0, 0) of the world X axis with absolute value at most
0.9 (there the selected candidate axis is parallel to d and the cross
product vanishes), compute_up_direction(d) returns a unit vector
orthogonal to d. -/
theorem c5_up_direction_unit_orthogonal (d : Vec3) (hpos : 0 < d.length)
    (hok : ¬ (d.y = 0 ∧ d.z = 0 ∧ |d.x| ≤ 0.9)) :
    (compute_up_direction d).length = 1 ∧ (compute_up_direction d).dot d = 0 := by
  unfold compute_up_direction
  by_cases hx : |(vec3 1 0 0).dot d| > 0.9
  · rw [if_pos hx]
    have habs : |d.x| > 0.9 := by
      have : (vec3 1 0 0).dot d = d.x := by unfold Vec3.dot vec3; ring
      rwa [this] at hx
    have hcross : 0 < ((vec3 0 1 0).cross d).dot ((vec3 0 1 0).cross d) := by
      have hx2 : 0.81 < d.x ^ 2 := by nlinarith [sq_abs d.x, abs_nonneg d.x]
      unfold Vec3.cross Vec3.dot vec3
      dsimp only
      nlinarith [sq_nonneg d.z]
    refine ⟨Vec3.length_normalize hcross, ?_⟩
    rw [Vec3.dot_normalize_left, Vec3.dot_cross_right]
    simp
  · rw [if_neg hx]
    have habs : |d.x| ≤ 0.9 := by
      have hdx : (vec3 1 0 0).dot d = d.x := by unfold Vec3.dot vec3; ring
      rw [hdx] at hx
      linarith [not_lt.mp hx]
    have hyz : ¬ (d.y = 0 ∧ d.z = 0) := fun ⟨hy, hz⟩ => hok ⟨hy, hz, habs⟩
    have hcross : 0 < ((vec3 1 0 0).cross d).dot ((vec3 1 0 0).cross d) := by
      unfold Vec3.cross Vec3.dot vec3
      dsimp only
      rcases not_and_or.mp hyz with hy | hz
      · nlinarith [sq_nonneg d.z, sq_nonneg d.y, mul_self_pos.mpr hy]
      · nlinarith [sq_nonneg d.z, sq_nonneg d.y, mul_self_pos.mpr hz]
    refine ⟨Vec3.length_normalize hcross, ?_⟩
    rw [Vec3.dot_normalize_left, Vec3.dot_cross_right]
    simp

theorem c5_witness :
    0 < (vec3 0 0 1).length ∧
    ¬ ((vec3 0 0 1).y = 0 ∧ (vec3 0 0 1).z = 0 ∧ |(vec3 0 0 1).x| ≤ 0.9) ∧
    ((compute_up_direction (vec3 0 0 1)).length = 1 ∧
     (compute_up_direction (vec3 0 0 1)).dot (vec3 0 0 1) = 0) :=
  ⟨by
    rw [length_eval (by norm_num : (0:ℝ) ≤ 1)
        (by norm_num : (0:ℝ) * 0 + 0 * 0 + 1 * 1 = 1 ^ 2)]
    norm_num,
   by
    unfold vec3
    norm_num,
   c5_up_direction_unit_orthogonal (vec3 0 0 1)
     (by
       rw [length_eval (by norm_num : (0:ℝ) ≤ 1)
           (by norm_num : (0:ℝ) * 0 + 0 * 0 + 1 * 1 = 1 ^ 2)]
       norm_num)
     (by
       unfold vec3
       norm_num)⟩

/-- Modelled from the spec sentence for C6: select as candidate
whichever of the world X and Y axes has the smaller dot product
magnitude with the direction (the X axis on ties), and return the
normalized cross product of the candidate with the direction. -/
noncomputable def smaller_dot_up_direction (d : Vec3) : Vec3 :=
  let axis := if |(vec3 1 0 0).dot d| ≤ |(vec3 0 1 0).dot d| then vec3 1 0 0
              else vec3 0 1 0
  (axis.cross d).normalize

/-- The selection rule the code actually implements: the world Y axis
when the X axis dot product magnitude exceeds the 0.9 threshold, the
world X axis otherwise, then the normalized cross product. -/
noncomputable def threshold_up_direction (d : Vec3) : Vec3 :=
  let axis := if |(vec3 1 0 0).dot d| > 0.9 then vec3 0 1 0 else vec3 1 0 0
  (axis.cross d).normalize

/-- Claim C6 as stated is false: for the direction (1/2, 1/10, 0) the Y
axis has the smaller dot product magnitude (1/10 against 1/2), so the
smaller-magnitude rule of the spec crosses with the Y axis and yields
(0, 0, -1), while the code stays below its 0.9 threshold, crosses with
the X axis and yields (0, 0, 1). -/
theorem c6_counterexample :
    smaller_dot_up_direction (vec3 (1/2) (1/10) 0) ≠
      compute_up_direction (vec3 (1/2) (1/10) 0) := by
  have habs1 : |(vec3 1 0 0).dot (vec3 (1/2) (1/10) 0)| = 1/2 := by
    rw [dot_eval, show (1:ℝ) * (1/2) + 0 * (1/10) + 0 * 0 = 1/2 by ring,
        abs_of_nonneg (by norm_num : (0:ℝ) ≤ 1/2)]
  have habs2 : |(vec3 0 1 0).dot (vec3 (1/2) (1/10) 0)| = 1/10 := by
    rw [dot_eval, show (0:ℝ) * (1/2) + 1 * (1/10) + 0 * 0 = 1/10 by ring,
        abs_of_nonneg (by norm_num : (0:ℝ) ≤ 1/10)]
  have hspec : smaller_dot_up_direction (vec3 (1/2) (1/10) 0) = vec3 0 0 (-1) := by
    unfold smaller_dot_up_direction
    dsimp only
    rw [if_neg (by rw [habs1, habs2]; norm_num), cross_eval,
        show vec3 ((1:ℝ) * 0 - 0 * (1/10)) (0 * (1/2) - 0 * 0) (0 * (1/10) - 1 * (1/2)) =
          vec3 0 0 (-(1/2)) by unfold vec3; ext <;> dsimp <;> ring,
        normalize_eval (by norm_num : (0:ℝ) ≤ 1/2)
          (by norm_num : (0:ℝ) * 0 + 0 * 0 + -(1/2) * -(1/2) = (1/2) ^ 2)]
    unfold vec3
    ext <;> dsimp <;> norm_num
  have hcode : compute_up_direction (vec3 (1/2) (1/10) 0) = vec3 0 0 1 := by
    unfold compute_up_direction
    rw [if_neg (by rw [habs1]; norm_num), cross_eval,
        show vec3 ((0:ℝ) * 0 - 0 * (1/10)) (0 * (1/2) - 1 * 0) (1 * (1/10) - 0 * (1/2)) =
          vec3 0 0 (1/10) by unfold vec3; ext <;> dsimp <;> ring,
        normalize_eval (by norm_num : (0:ℝ) ≤ 1/10)
          (by norm_num : (0:ℝ) * 0 + 0 * 0 + 1/10 * (1/10) = (1/10) ^ 2)]
    unfold vec3
    ext <;> dsimp <;> norm_num
  rw [hspec, hcode]
  intro hcontra
  have hz := congrArg Vec3.z hcontra
  dsimp [vec3] at hz
  norm_num at hz

/-- Claim C6 amended: the up vector computation selects the candidate
axis by the fixed 0.9 threshold test on the X axis dot product magnitude
(the world Y axis above the threshold, the world X axis otherwise), not
by comparing the two magnitudes, and returns the normalized cross
product of the candidate with the direction. -/
theorem c6_up_direction_threshold_selection (d : Vec3) :
    compute_up_direction d = threshold_up_direction d := by
  unfold compute_up_direction threshold_up_direction
  dsimp only
  by_cases hx : |(vec3 1 0 0).dot d| > 0.9
  · rw [if_pos hx, if_pos hx]
  · rw [if_neg hx, if_neg hx]

/-- Homogeneous transform of a point by a matrix with perspective
divide, as a shader samples a shadow map through the shadow matrix. -/
noncomputable def transform_point (m : Mat4) (p : Vec3) : Vec3 :=
  let v := m.mulVec4 ⟨p.x, p.y, p.z, 1⟩
  vec3 (v.x / v.w) (v.y / v.w) (v.z / v.w)

/-- All three coordinates within the unit interval. -/
def inUnitCube (p : Vec3) : Prop :=
  0 ≤ p.x ∧ p.x ≤ 1 ∧ 0 ≤ p.y ∧ p.y ≤ 1 ∧ 0 ≤ p.z ∧ p.z ≤ 1

/-- The side axis of a view is orthogonal to its forward axis. -/
theorem side_dot_forward (c : Camera) : c.side.dot c.forward = 0 := by
  unfold Camera.side
  rw [Vec3.dot_normalize_left, Vec3.dot_cross_left]
  simp

/-- The recomputed up axis of a view is orthogonal to its forward
axis. -/
theorem viewUp_dot_forward (c : Camera) : c.viewUp.dot c.forward = 0 := by
  unfold Camera.viewUp
  exact Vec3.dot_cross_right c.side c.forward

/-- Subtracting a point from itself displaced gives the displacement. -/
theorem sub_sub_cancel_vec (p v : Vec3) : p.sub (p.sub v) = v := by
  unfold Vec3.sub
  ext <;> dsimp <;> ring

/-- The view matrix maps a point on the view axis at distance k in front
of the camera to view coordinates (0, 0, -k). -/
theorem view_apply_axis (c : Camera) (k : ℝ)
    (hf : c.forward.dot c.forward = 1) :
    c.get_view.mulVec4 ⟨(c.position.add (c.forward.smul k)).x,
                        (c.position.add (c.forward.smul k)).y,
                        (c.position.add (c.forward.smul k)).z, 1⟩ =
      ⟨0, 0, -k, 1⟩ := by
  have hs := side_dot_forward c
  have hu := viewUp_dot_forward c
  unfold Camera.get_view Mat4.mulVec4 Vec3.add Vec3.smul
  unfold Vec3.dot at hs hu hf ⊢
  dsimp only
  ext
  · dsimp only
    linear_combination k * hs
  · dsimp only
    linear_combination k * hu
  · dsimp only
    linear_combination (-k) * hf
  · dsimp only
    ring

/-- The shadow camera of a DirectionalLight maps the center of its view
frustum through its shadow matrix into the unit cube. -/
theorem dir_center_in_cube (dir target : Vec3) (w h d : ℝ)
    (hdir : dir ≠ vec3 0 0 0) (hd : 0 < d) :
    inUnitCube (transform_point (shadow_matrix (dirShadowCamera dir target w h d))
      ((dirShadowCamera dir target w h d).frustumCenter)) := by
  have hdne : d ≠ 0 := ne_of_gt hd
  have htp : (dirShadowCamera dir target w h d).target.sub
      (dirShadowCamera dir target w h d).position = (dir.normalize.smul 0.5).smul d := by
    unfold dirShadowCamera Camera.new_orthographic
    dsimp only
    exact sub_sub_cancel_vec target ((dir.normalize.smul 0.5).smul d)
  have hnn : dir.normalize.dot dir.normalize = 1 :=
    Vec3.dot_normalize_self (Vec3.dot_self_pos hdir)
  have htpdot : ((dir.normalize.smul 0.5).smul d).dot
      ((dir.normalize.smul 0.5).smul d) = (0.5 * d) ^ 2 := by
    rw [Vec3.smul_dot_smul, Vec3.smul_dot_smul, hnn]
    ring
  have htppos : 0 < ((dir.normalize.smul 0.5).smul d).dot
      ((dir.normalize.smul 0.5).smul d) := by
    rw [htpdot]
    positivity
  have hf1 : (dirShadowCamera dir target w h d).forward.dot
      (dirShadowCamera dir target w h d).forward = 1 := by
    unfold Camera.forward
    rw [htp]
    exact Vec3.dot_normalize_self htppos
  have hcen : (dirShadowCamera dir target w h d).frustumCenter =
      (dirShadowCamera dir target w h d).position.add
        ((dirShadowCamera dir target w h d).forward.smul (d / 2)) := rfl
  have hview : (dirShadowCamera dir target w h d).get_view.mulVec4
      ⟨(dirShadowCamera dir target w h d).frustumCenter.x,
       (dirShadowCamera dir target w h d).frustumCenter.y,
       (dirShadowCamera dir target w h d).frustumCenter.z, 1⟩ = ⟨0, 0, -(d / 2), 1⟩ := by
    rw [hcen]
    exact view_apply_axis (dirShadowCamera dir target w h d) (d / 2) hf1
  have hproj : (dirShadowCamera dir target w h d).get_projection.mulVec4
      ⟨0, 0, -(d / 2), 1⟩ = ⟨0, 0, 0, 1⟩ := by
    unfold dirShadowCamera Camera.new_orthographic Camera.get_projection Mat4.mulVec4
    dsimp only
    ext
    · dsimp only; ring
    · dsimp only; ring
    · dsimp only
      field_simp
    · dsimp only; ring
  unfold transform_point shadow_matrix
  dsimp only
  rw [Mat4.mul_mulVec4, Mat4.mul_mulVec4, hview, hproj]
  unfold Mat4.new Mat4.mulVec4
  unfold inUnitCube vec3
  norm_num

/-- The shadow camera of a SpotLight maps the center of its view
frustum through its shadow matrix into the unit cube. -/
theorem spot_center_in_cube (pos dir : Vec3) (cut d : ℝ)
    (hdir : dir ≠ vec3 0 0 0) (hd : 0.1 < d) :
    inUnitCube (transform_point (shadow_matrix (spotShadowCamera pos dir cut d))
      ((spotShadowCamera pos dir cut d).frustumCenter)) := by
  have hdne : d - 0.1 ≠ 0 := by
    intro hcontra
    have : d = 0.1 := by linarith
    rw [this] at hd
    exact lt_irrefl _ hd
  have hsum : (0:ℝ) < 0.1 + d := by
    have : (0:ℝ) < 0.1 := by norm_num
    linarith
  have hsumne : (0.1 : ℝ) + d ≠ 0 := ne_of_gt hsum
  have htp : (spotShadowCamera pos dir cut d).target.sub
      (spotShadowCamera pos dir cut d).position = dir := by
    unfold spotShadowCamera Camera.new_perspective
    dsimp only
    exact Vec3.add_sub_cancel_left pos dir
  have hf1 : (spotShadowCamera pos dir cut d).forward.dot
      (spotShadowCamera pos dir cut d).forward = 1 := by
    unfold Camera.forward
    rw [htp]
    exact Vec3.dot_normalize_self (Vec3.dot_self_pos hdir)
  have hcen : (spotShadowCamera pos dir cut d).frustumCenter =
      (spotShadowCamera pos dir cut d).position.add
        ((spotShadowCamera pos dir cut d).forward.smul ((0.1 + d) / 2)) := rfl
  have hview : (spotShadowCamera pos dir cut d).get_view.mulVec4
      ⟨(spotShadowCamera pos dir cut d).frustumCenter.x,
       (spotShadowCamera pos dir cut d).frustumCenter.y,
       (spotShadowCamera pos dir cut d).frustumCenter.z, 1⟩ =
      ⟨0, 0, -((0.1 + d) / 2), 1⟩ := by
    rw [hcen]
    exact view_apply_axis (spotShadowCamera pos dir cut d) ((0.1 + d) / 2) hf1
  have hproj : (spotShadowCamera pos dir cut d).get_projection.mulVec4
      ⟨0, 0, -((0.1 + d) / 2), 1⟩ = ⟨0, 0, (d - 0.1) / 2, (0.1 + d) / 2⟩ := by
    unfold spotShadowCamera Camera.new_perspective Camera.get_projection Mat4.mulVec4
    dsimp only
    ext
    · dsimp only; ring
    · dsimp only; ring
    · dsimp only
      field_simp
      ring
    · dsimp only; ring
  have hbias : (Mat4.new
      0.5 0.0 0.0 0.0
      0.0 0.5 0.0 0.0
      0.0 0.0 0.5 0.0
      0.5 0.5 0.5 1.0).mulVec4 ⟨0, 0, (d - 0.1) / 2, (0.1 + d) / 2⟩ =
      ⟨(0.1 + d) / 4, (0.1 + d) / 4, d / 2, (0.1 + d) / 2⟩ := by
    unfold Mat4.new Mat4.mulVec4
    ext <;> dsimp only <;> ring
  unfold transform_point shadow_matrix
  dsimp only
  rw [Mat4.mul_mulVec4, Mat4.mul_mulVec4, hview, hproj, hbias]
  have hx : ((0.1 + d) / 4) / ((0.1 + d) / 2) = 1 / 2 := by
    field_simp
    ring
  have hz : (d / 2) / ((0.1 + d) / 2) = d / (0.1 + d) := by
    field_simp
  unfold inUnitCube vec3
  dsimp only
  rw [hx, hz]
  refine ⟨by norm_num, by norm_num, by norm_num, by norm_num, ?_, ?_⟩
  · have hd0 : (0:ℝ) < d := by
      have : (0:ℝ) < 0.1 := by norm_num
      linarith
    positivity
  · rw [div_le_one hsum]
    linarith

/-- Claim C9: for every shadow camera built by generate_shadow_map of a
directional or spot light with a nonzero stored direction and a non
degenerate frustum depth, transforming the point at the exact center of
that camera view frustum by the stored shadow matrix (the bias matrix
times projection times view) yields homogeneous normalized coordinates
all within [0, 1]. -/
theorem c9_shadow_matrix_frustum_center :
    (∀ (dl dl' : DirectionalLight) (dir target : Vec3) (w h d : ℝ) (tw th : ℕ),
       dl.direction = some dir → dir ≠ vec3 0 0 0 → 0 < d →
       dl.generate_shadow_map target w h d tw th = some dl' →
       ∀ cam, dl'.shadow_camera = some cam →
         inUnitCube (transform_point (shadow_matrix cam) cam.frustumCenter)) ∧
    (∀ (sl sl' : SpotLight) (dir : Vec3) (d : ℝ) (ts : ℕ),
       sl.direction = some dir → dir ≠ vec3 0 0 0 → 0.1 < d →
       sl.generate_shadow_map d ts = some sl' →
       ∀ cam, sl'.shadow_camera = some cam →
         inUnitCube (transform_point (shadow_matrix cam) cam.frustumCenter)) := by
  constructor
  · intro dl dl' dir target w h d tw th hdir hdnz hd hgen cam hcam
    unfold DirectionalLight.generate_shadow_map at hgen
    rw [hdir] at hgen
    dsimp only [Option.bind] at hgen
    cases hu : dl.light_buffer.update 4
        (shadow_matrix (Camera.new_orthographic
          (target.sub ((dir.normalize.smul 0.5).smul d)) target
          (compute_up_direction dir) w h d)).to_slice with
    | none => rw [hu] at hgen; exact absurd hgen (by simp)
    | some b =>
      rw [hu] at hgen
      dsimp only [Option.bind] at hgen
      cases hgen
      dsimp only at hcam
      cases hcam
      exact dir_center_in_cube dir target w h d hdnz hd
  · intro sl sl' dir d ts hdir hdnz hd hgen cam hcam
    unfold SpotLight.generate_shadow_map at hgen
    cases hposv : sl.position with
    | none => rw [hposv] at hgen; exact absurd hgen (by simp [Option.bind])
    | some pos =>
      rw [hposv, hdir] at hgen
      dsimp only [Option.bind] at hgen
      cases hcf : sl.light_buffer.get 7 with
      | none => rw [hcf] at hgen; exact absurd hgen (by simp [Option.bind])
      | some cutoffField =>
        rw [hcf] at hgen
        dsimp only [Option.bind] at hgen
        cases hhd : cutoffField.head? with
        | none => rw [hhd] at hgen; exact absurd hgen (by simp [Option.bind])
        | some cut =>
          rw [hhd] at hgen
          dsimp only [Option.bind] at hgen
          cases hu : sl.light_buffer.update 10
              (shadow_matrix (Camera.new_perspective pos (pos.add dir)
                (compute_up_direction dir) cut 1.0 0.1 d)).to_slice with
          | none => rw [hu] at hgen; exact absurd hgen (by simp)
          | some b =>
            rw [hu] at hgen
            dsimp only [Option.bind] at hgen
            cases hgen
            dsimp only at hcam
            cases hcam
            exact spot_center_in_cube pos dir cut d hdnz hd

/-- The DirectionalLight of the C9 witness after generate_shadow_map. -/
noncomputable def witGenDir : DirectionalLight :=
  { light_buffer := ⟨witDirLight.light_buffer.sizes,
      witDirLight.light_buffer.data.set 4
        (shadow_matrix (dirShadowCamera (vec3 0 0 1) (vec3 0 0 0) 2 2 2)).to_slice⟩,
    shadow_rendertarget := witDirLight.shadow_rendertarget,
    shadow_texture := some ⟨7, 9⟩,
    shadow_camera := some (dirShadowCamera (vec3 0 0 1) (vec3 0 0 0) 2 2 2) }

/-- The SpotLight of the C9 witness after generate_shadow_map. -/
noncomputable def witGenSpot : SpotLight :=
  { light_buffer := ⟨witSpotLight.light_buffer.sizes,
      witSpotLight.light_buffer.data.set 10
        (shadow_matrix (spotShadowCamera (vec3 2 0 0) (vec3 0 0 1) 30 5)).to_slice⟩,
    shadow_rendertarget := witSpotLight.shadow_rendertarget,
    shadow_texture := some ⟨11, 11⟩,
    shadow_camera := some (spotShadowCamera (vec3 2 0 0) (vec3 0 0 1) 30 5) }

theorem c9_witness :
    witDirLight.direction = some (vec3 0 0 1) ∧
    vec3 0 0 1 ≠ vec3 0 0 0 ∧ (0:ℝ) < 2 ∧ (0.1:ℝ) < 5 ∧
    witDirLight.generate_shadow_map (vec3 0 0 0) 2 2 2 7 9 = some witGenDir ∧
    witSpotLight.generate_shadow_map 5 11 = some witGenSpot ∧
    inUnitCube (transform_point
      (shadow_matrix (dirShadowCamera (vec3 0 0 1) (vec3 0 0 0) 2 2 2))
      ((dirShadowCamera (vec3 0 0 1) (vec3 0 0 0) 2 2 2).frustumCenter)) ∧
    inUnitCube (transform_point
      (shadow_matrix (spotShadowCamera (vec3 2 0 0) (vec3 0 0 1) 30 5))
      ((spotShadowCamera (vec3 2 0 0) (vec3 0 0 1) 30 5).frustumCenter)) :=
  ⟨rfl, by norm_num [vec3, Vec3.mk.injEq], by norm_num, by norm_num,
   @dir_generate_eq witDirLight (vec3 0 0 1) rfl rfl (vec3 0 0 0) 2 2 2 7 9,
   @spot_generate_eq witSpotLight (vec3 2 0 0) (vec3 0 0 1) 30 [] rfl rfl rfl rfl 5 11,
   c9_shadow_matrix_frustum_center.1 witDirLight witGenDir (vec3 0 0 1) (vec3 0 0 0)
     2 2 2 7 9 rfl (by norm_num [vec3, Vec3.mk.injEq]) (by norm_num)
     (@dir_generate_eq witDirLight (vec3 0 0 1) rfl rfl (vec3 0 0 0) 2 2 2 7 9) _ rfl,
   c9_shadow_matrix_frustum_center.2 witSpotLight witGenSpot (vec3 0 0 1) 5 11
     rfl (by norm_num [vec3, Vec3.mk.injEq]) (by norm_num)
     (@spot_generate_eq witSpotLight (vec3 2 0 0) (vec3 0 0 1) 30 [] rfl rfl rfl rfl 5 11)
     _ rfl⟩

end ThreeD
